import Mathlib

/-!
# killport: a shallow embedding of `main.go`

`killport` finds the processes bound to a port (`lsof` on Unix, `netstat` and
`tasklist` on Windows), asks for confirmation and force-kills them.

The embedding keeps the shape of the Go source:

* Go strings are Lean `String`s; the few functions of Go's `strings`, `strconv`
  and `fmt` packages that `main.go` calls are written out on character lists.
* Everything the program does to the outside world is recorded, in order, in
  a list of `Event`s: writes to standard output, writes to the error stream,
  commands executed, and reads from standard input.
* The outside world is a `Host`: the value of `runtime.GOOS`, and what each
  command and each read answers, as a function of the events so far.
* `main` returns the exit status together with the events.
-/

set_option autoImplicit false
set_option maxRecDepth 20000

namespace Killport

/-! ## Go's string functions -/

/-- Go's `unicode.IsSpace`: the ASCII blanks (tab, line feed, vertical tab, form
feed, carriage return, space), U+0085, U+00A0 and the runes with the Unicode
property White_Space. -/
def isSpace (c : Char) : Bool :=
  c.toNat = 0x09 || c.toNat = 0x0A || c.toNat = 0x0B || c.toNat = 0x0C || c.toNat = 0x0D ||
  c.toNat = 0x20 || c.toNat = 0x85 || c.toNat = 0xA0 || c.toNat = 0x1680 ||
  (0x2000 ≤ c.toNat && c.toNat ≤ 0x200A) ||
  c.toNat = 0x2028 || c.toNat = 0x2029 || c.toNat = 0x202F || c.toNat = 0x205F ||
  c.toNat = 0x3000

/-- Go's `strings.TrimSpace` on a character list: leading and trailing white
space removed. -/
def trimSpaceL (l : List Char) : List Char :=
  ((l.dropWhile isSpace).reverse.dropWhile isSpace).reverse

/-- Go's `strings.TrimSpace`. -/
def TrimSpace (s : String) : String := ⟨trimSpaceL s.data⟩

/-- Go's `strings.Trim(s, cutset)` for a cutset of one character. -/
def Trim (s : String) (cut : Char) : String :=
  ⟨((s.data.dropWhile (fun c => c == cut)).reverse.dropWhile (fun c => c == cut)).reverse⟩

/-- The loop of `strings.Fields`: `cur` is the field being read, reversed. -/
def fieldsL : List Char → List Char → List (List Char)
  | [], cur => if cur.isEmpty then [] else [cur.reverse]
  | c :: cs, cur =>
    if isSpace c then
      if cur.isEmpty then fieldsL cs [] else cur.reverse :: fieldsL cs []
    else fieldsL cs (c :: cur)

/-- Go's `strings.Fields`: the maximal runs of non-blank characters. -/
def Fields (s : String) : List String := (fieldsL s.data []).map String.mk

/-- The loop of `strings.Split` for a separator of one character: `cur` is the
piece being read, reversed. -/
def splitL (sep : Char) : List Char → List Char → List (List Char)
  | [], cur => [cur.reverse]
  | c :: cs, cur => if c = sep then cur.reverse :: splitL sep cs [] else splitL sep cs (c :: cur)

/-- Go's `strings.Split(s, sep)` for a separator of one character; the result is
never empty. -/
def Split (s : String) (sep : Char) : List String := (splitL sep s.data []).map String.mk

/-- Go's `strings.HasSuffix`. -/
def HasSuffix (s suffix : String) : Bool := suffix.data.isSuffixOf s.data

/-- Go's `unicode.ToLower` on an ASCII rune: `A` (0x41) to `Z` (0x5A) are moved
up by `'a' - 'A'`. -/
def asciiLower (c : Char) : Char :=
  if 0x41 ≤ c.toNat ∧ c.toNat ≤ 0x5A then Char.ofNat (c.toNat + 32) else c

/-- Go's `unicode.ToLower`. ASCII runes are mapped by the explicit test of the
Go function. Above ASCII Go looks the rune up in its case table, which is not
part of this program: the white-space runes have no entry in it and stay as
they are, every other rune is mapped by the parameter `table`. -/
def toLowerRune (table : Char → Char) (c : Char) : Char :=
  if c.toNat < 128 then asciiLower c else if isSpace c then c else table c

/-- Go's `strings.ToLower`, over the case table `table`. -/
def ToLower (table : Char → Char) (s : String) : String := ⟨s.data.map (toLowerRune table)⟩

/-- The digits of `fmt`'s `%d` for a natural number. -/
def natDigits (n : Nat) : List Char := Nat.toDigits 10 n

/-- What `fmt`'s verb `%d` prints for an `int`. -/
def fmtInt (i : Int) : String :=
  if i < 0 then ⟨'-' :: natDigits i.natAbs⟩ else ⟨natDigits i.toNat⟩

/-- The value of a run of decimal digits, `none` when a character is not a
digit: the loop `n = n*10 + int(ch)` of `strconv.Atoi`. -/
def digitsValue : List Char → Nat → Option Nat
  | [], n => some n
  | c :: cs, n => if c.isDigit then digitsValue cs (n * 10 + (c.toNat - '0'.toNat)) else none

/-- Go's `strconv.Atoi` on a 64-bit platform: an optional sign, then one or
more decimal digits; `none` stands for a non-nil error (bad syntax, or a value
that does not fit `int`). -/
def Atoi (s : String) : Option Int :=
  let body : List Char :=
    match s.data with
    | '-' :: cs => cs
    | '+' :: cs => cs
    | cs => cs
  if body.isEmpty then none
  else
    match digitsValue body 0 with
    | none => none
    | some n =>
      let v : Int := if s.data.head? = some '-' then -(n : Int) else (n : Int)
      if v < -(2 : Int) ^ 63 ∨ (2 : Int) ^ 63 - 1 < v then none else some v

/-! ## The outside world -/

/-- What the program does to the outside world. -/
inductive Event where
  /-- A write to `os.Stdout`. -/
  | stdout (text : String)
  /-- A write to `os.Stderr`. -/
  | stderr (text : String)
  /-- A command started through `exec.Command(...).Output()` or `.Run()`. -/
  | exec (argv : List String)
  /-- One `reader.ReadString('\n')` on `os.Stdin`. -/
  | stdin
  deriving DecidableEq, Repr

/-- The machine the program runs on. Every answer may depend on the events so
far, so a command may answer differently each time it is run. An error is
`some message` (what `%v` prints), success is `none`. -/
structure Host where
  /-- The value of `runtime.GOOS`. -/
  goos : String
  /-- The package variable `version`, set through ldflags. -/
  version : String
  /-- The answer of `cmd.Output()`: the bytes on standard output, and the error. -/
  output : List Event → List String → String × Option String
  /-- The answer of `cmd.Run()`: the error. -/
  run : List Event → List String → Option String
  /-- The answer of `reader.ReadString('\n')`: the text read, and the error. -/
  readString : List Event → String × Option String
  /-- Go's case table for the runes above ASCII, see `toLowerRune`. -/
  lowerTable : Char → Char

/-- What a run of the program leaves behind: the exit status and the events. -/
structure Result where
  exit : Nat
  trace : List Event
  deriving DecidableEq, Repr

/-- What `findProcessOnPort` returns, `(string, []string, error)`, together
with the events after the call. -/
structure Found where
  info : String
  pids : List String
  err : Option String
  trace : List Event
  deriving DecidableEq, Repr

/-- The text printed by `printUsage`, with the newline of `fmt.Println`. -/
def usageText : String :=
  "killport - Kill processes running on a specific port\n\nUsage:\n  killport [options] <port>\n\nOptions:\n  -y, --yes       Skip confirmation prompt and kill immediately\n  -h, --help      Show this help message\n  -v, --version   Show version information\n\nExamples:\n  killport 3000       Kill the process on port 3000 (with confirmation)\n  killport -y 3000    Kill the process on port 3000 (no confirmation)\n  killport 8080       Kill the process on port 8080 (with confirmation)\n"

/-- The function `printUsage`. -/
def printUsage : Event := Event.stdout usageText

/-! ## Argument interpretation (`main`, lines 22 to 54) -/

/-- How the argument loop of `main` ends. -/
inductive ParseResult where
  /-- A token `-h` or `--help` was reached: usage is printed, `main` returns. -/
  | help
  /-- A token `-v` or `--version` was reached: the version is printed, `main` returns. -/
  | version
  /-- The token `arg` is neither a flag nor a port: `os.Exit(1)`. -/
  | invalid (arg : String)
  /-- The loop ran to its end with these values of `port` and `autoConfirm`. -/
  | done (port : Int) (autoConfirm : Bool)
  deriving DecidableEq, Repr

/-- The loop `for i := 0; i < len(args); i++` of `main`, with the variables
`port` and `autoConfirm` as accumulators. The loop writes nothing and runs
nothing before it ends. -/
def parseArgs : List String → Int → Bool → ParseResult
  | [], port, autoConfirm => ParseResult.done port autoConfirm
  | arg :: rest, port, autoConfirm =>
    if arg = "-h" ∨ arg = "--help" then ParseResult.help
    else if arg = "-v" ∨ arg = "--version" then ParseResult.version
    else if arg = "-y" ∨ arg = "--yes" then parseArgs rest port true
    else
      match Atoi arg with
      | none => ParseResult.invalid arg
      | some p =>
        if p < 1 ∨ p > 65535 then ParseResult.invalid arg
        else parseArgs rest p autoConfirm

/-! ## Port inspection -/

/-- The variables of the loop of `findProcessUnix`. The map `seenPids` is the
list of its keys; `seenPids[pid]` is membership. -/
structure UnixAcc where
  pids : List String
  info : String
  seenPids : List String
  deriving DecidableEq, Repr

/-- One turn of the loop of `findProcessUnix`, on the line of index `i`. -/
def unixStep (i : Nat) (line : String) (acc : UnixAcc) : UnixAcc :=
  if i = 0 ∨ line = "" then acc
  else
    let fields := Fields line
    if fields.length < 2 then acc
    else
      let pid := fields.getD 1 ""
      if pid ∈ acc.seenPids then acc
      else
        let processName := fields.getD 0 ""
        let user := if fields.length > 2 then fields.getD 2 "" else ""
        { pids := acc.pids ++ [pid],
          info := acc.info ++ ("  PID: " ++ pid ++ "  Name: " ++ processName ++ "  User: " ++ user ++ "\n"),
          seenPids := pid :: acc.seenPids }

/-- The loop `for i, line := range lines` of `findProcessUnix`, from index `i`. -/
def unixLoop : Nat → List String → UnixAcc → UnixAcc
  | _, [], acc => acc
  | i, line :: rest, acc => unixLoop (i + 1) rest (unixStep i line acc)

/-- The command of `findProcessUnix`. -/
def lsofCmd (port : Int) : List String := ["lsof", "-i", ":" ++ fmtInt port]

/-- The function `findProcessUnix`; `tr` holds the events before the call. -/
def findProcessUnix (h : Host) (port : Int) (tr : List Event) : Found :=
  let ans := h.output tr (lsofCmd port)
  let tr1 := tr ++ [Event.exec (lsofCmd port)]
  if ans.2.isSome ∨ ans.1.length = 0 then { info := "", pids := [], err := none, trace := tr1 }
  else
    let acc := unixLoop 0 (Split ans.1 '\n') { pids := [], info := "", seenPids := [] }
    { info := acc.info, pids := acc.pids, err := none, trace := tr1 }

/-- The variables of the loop of `findProcessWindows`, and the events so far. -/
structure WinAcc where
  pids : List String
  info : String
  seenPids : List String
  trace : List Event
  deriving DecidableEq, Repr

/-- The command that looks up the name of process `pid` on Windows. -/
def tasklistCmd (pid : String) : List String :=
  ["tasklist", "/FI", "PID eq " ++ pid, "/FO", "CSV", "/NH"]

/-- The process name read from the answer of `tasklist`. -/
def windowsProcessName (nameOutput : String) : String :=
  if nameOutput.length > 0 then
    match Split (TrimSpace nameOutput) ',' with
    | [] => "Unknown"
    | part :: _ => Trim part '"'
  else "Unknown"

/-- One turn of the loop of `findProcessWindows`. -/
def winStep (h : Host) (port : Int) (line0 : String) (acc : WinAcc) : WinAcc :=
  let line := TrimSpace line0
  if line = "" then acc
  else
    let fields := Fields line
    if fields.length < 5 then acc
    else
      let localAddr := fields.getD 1 ""
      if !HasSuffix localAddr (":" ++ fmtInt port) then acc
      else
        let pid := fields.getD (fields.length - 1) ""
        if pid = "0" ∨ pid ∈ acc.seenPids then acc
        else
          let nameOutput := (h.output acc.trace (tasklistCmd pid)).1
          let processName := windowsProcessName nameOutput
          { pids := acc.pids ++ [pid],
            info := acc.info ++
              ("  PID: " ++ pid ++ "  Name: " ++ processName ++ "  State: " ++ fields.getD 3 "" ++ "\n"),
            seenPids := pid :: acc.seenPids,
            trace := acc.trace ++ [Event.exec (tasklistCmd pid)] }

/-- The loop `for _, line := range lines` of `findProcessWindows`. -/
def winLoop (h : Host) (port : Int) : List String → WinAcc → WinAcc
  | [], acc => acc
  | line :: rest, acc => winLoop h port rest (winStep h port line acc)

/-- The command of `findProcessWindows`. -/
def netstatCmd (port : Int) : List String :=
  ["cmd", "/c", "netstat -ano | findstr :" ++ fmtInt port]

/-- The function `findProcessWindows`; `tr` holds the events before the call. -/
def findProcessWindows (h : Host) (port : Int) (tr : List Event) : Found :=
  let ans := h.output tr (netstatCmd port)
  let tr1 := tr ++ [Event.exec (netstatCmd port)]
  if ans.2.isSome ∨ ans.1.length = 0 then { info := "", pids := [], err := none, trace := tr1 }
  else
    let acc := winLoop h port (Split ans.1 '\n') { pids := [], info := "", seenPids := [], trace := tr1 }
    { info := acc.info, pids := acc.pids, err := none, trace := acc.trace }

/-- The function `findProcessOnPort`. -/
def findProcessOnPort (h : Host) (port : Int) (tr : List Event) : Found :=
  if h.goos = "windows" then findProcessWindows h port tr
  else if h.goos = "darwin" ∨ h.goos = "linux" then findProcessUnix h port tr
  else { info := "", pids := [], err := some ("unsupported operating system: " ++ h.goos), trace := tr }

/-! ## Termination -/

/-- What the kill loops print after the command for `pid` answered `outcome`. -/
def killReport (pid : String) (port : Int) (outcome : Option String) : Event :=
  match outcome with
  | some e => Event.stderr ("Warning: Failed to kill process " ++ pid ++ ": " ++ e ++ "\n")
  | none => Event.stdout ("Killed process " ++ pid ++ " on port " ++ fmtInt port ++ "\n")

/-- The command of `killProcessesWindows` for one process. -/
def taskkillCmd (pid : String) : List String := ["taskkill", "/F", "/PID", pid]

/-- The command of `killProcessesUnix` for one process. -/
def killCmd (pid : String) : List String := ["kill", "-9", pid]

/-- The function `killProcessesWindows`: the events after the loop, and the
error returned. -/
def killProcessesWindows (h : Host) : List String → Int → List Event → List Event × Option String
  | [], _, tr => (tr, none)
  | pid :: rest, port, tr =>
    killProcessesWindows h rest port
      (tr ++ [Event.exec (taskkillCmd pid), killReport pid port (h.run tr (taskkillCmd pid))])

/-- The function `killProcessesUnix`: the events after the loop, and the error
returned. -/
def killProcessesUnix (h : Host) : List String → Int → List Event → List Event × Option String
  | [], _, tr => (tr, none)
  | pid :: rest, port, tr =>
    killProcessesUnix h rest port
      (tr ++ [Event.exec (killCmd pid), killReport pid port (h.run tr (killCmd pid))])

/-- The function `killProcesses`. -/
def killProcesses (h : Host) (pids : List String) (port : Int) (tr : List Event) :
    List Event × Option String :=
  if h.goos = "windows" then killProcessesWindows h pids port tr
  else if h.goos = "darwin" ∨ h.goos = "linux" then killProcessesUnix h pids port tr
  else (tr, some ("unsupported operating system: " ++ h.goos))

/-! ## The program -/

/-- Lines 89 to 93 of `main`: kill the processes, exit 1 on an error. -/
def mainKill (h : Host) (pids : List String) (port : Int) (tr : List Event) : Result :=
  let r := killProcesses h pids port tr
  match r.2 with
  | some e => { exit := 1, trace := r.1 ++ [Event.stderr ("Error: " ++ e ++ "\n")] }
  | none => { exit := 0, trace := r.1 }

/-- Lines 73 to 93 of `main`: the confirmation, then the kill. -/
def mainConfirm (h : Host) (pids : List String) (port : Int) (autoConfirm : Bool)
    (tr : List Event) : Result :=
  if !autoConfirm then
    let tr1 := tr ++ [Event.stdout "\nKill this process? [y/N]: "]
    let ans := h.readString tr1
    let tr2 := tr1 ++ [Event.stdin]
    match ans.2 with
    | some e => { exit := 1, trace := tr2 ++ [Event.stderr ("Error reading input: " ++ e ++ "\n")] }
    | none =>
      let response := TrimSpace (ToLower h.lowerTable ans.1)
      if response ≠ "y" ∧ response ≠ "yes" then
        { exit := 0, trace := tr2 ++ [Event.stdout "Aborted.\n"] }
      else mainKill h pids port tr2
  else mainKill h pids port tr

/-- Lines 56 to 93 of `main`: inspection, summary, confirmation, kill. -/
def mainInspect (h : Host) (port : Int) (autoConfirm : Bool) : Result :=
  let found := findProcessOnPort h port []
  match found.err with
  | some e => { exit := 1, trace := found.trace ++ [Event.stderr ("Error: " ++ e ++ "\n")] }
  | none =>
    if found.pids.length = 0 then
      { exit := 0,
        trace := found.trace ++ [Event.stdout ("No process found running on port " ++ fmtInt port ++ "\n")] }
    else
      mainConfirm h found.pids port autoConfirm
        (found.trace ++ [Event.stdout ("Found process(es) on port " ++ fmtInt port ++ ":\n"),
          Event.stdout (found.info ++ "\n")])

/-- The function `main`, on the whole of `os.Args` (the program name first). -/
def main (h : Host) (osArgs : List String) : Result :=
  if osArgs.length < 2 then { exit := 1, trace := [printUsage] }
  else
    match parseArgs (osArgs.drop 1) 0 false with
    | ParseResult.help => { exit := 0, trace := [printUsage] }
    | ParseResult.version => { exit := 0, trace := [Event.stdout ("killport v" ++ h.version ++ "\n")] }
    | ParseResult.invalid arg =>
      { exit := 1,
        trace := [Event.stderr ("Error: Invalid port number \x27" ++ arg ++
          "\x27. Port must be between 1 and 65535.\n")] }
    | ParseResult.done port autoConfirm =>
      if port = 0 then { exit := 1, trace := [Event.stderr "Error: No port specified.\n", printUsage] }
      else mainInspect h port autoConfirm

/-! ## Words of the specification -/

/-- The help flags. -/
def isHelpFlag (a : String) : Bool := a = "-h" || a = "--help"

/-- The version flags. -/
def isVersionFlag (a : String) : Bool := a = "-v" || a = "--version"

/-- The auto-confirm flags. -/
def isYesFlag (a : String) : Bool := a = "-y" || a = "--yes"

/-- A recognised flag: one of `-h`, `--help`, `-v`, `--version`, `-y`, `--yes`. -/
def isFlag (a : String) : Bool := isHelpFlag a || isVersionFlag a || isYesFlag a

/-- The port a token stands for: its value when it is a base-10 integer in
`[1, 65535]`. -/
def portOf (a : String) : Option Int :=
  match Atoi a with
  | some p => if 1 ≤ p ∧ p ≤ 65535 then some p else none
  | none => none

/-- A port token: not a flag, and a base-10 integer in `[1, 65535]`. -/
def isPortToken (a : String) : Bool := !isFlag a && (portOf a).isSome

/-- An invalid token: not a recognised flag, and not a base-10 integer or an
integer outside `[1, 65535]`. -/
def isInvalidToken (a : String) : Bool := !isFlag a && (portOf a).isNone

/-- The value of the last port token of an argument list. -/
def lastPort (args : List String) : Option Int :=
  (args.filterMap (fun a => if isFlag a then none else portOf a)).getLast?

/-- No command is executed in these events: no inspection, no termination. -/
def noCommand (tr : List Event) : Prop := ∀ argv, Event.exec argv ∉ tr

/-- The message of `main` for the invalid token `arg`. -/
def invalidPortMessage (arg : String) : String :=
  "Error: Invalid port number \x27" ++ arg ++ "\x27. Port must be between 1 and 65535.\n"

/-- A host used in the examples: Linux, `lsof` finds nothing, every kill
succeeds, the operator answers `y`. -/
def quietHost : Host where
  goos := "linux"
  version := "dev"
  output := fun _ _ => ("", none)
  run := fun _ _ => none
  readString := fun _ => ("y\n", none)
  lowerTable := id

/-- The identifier list `pids` lists the identifiers `ids` without duplicates,
in the order of their first appearance in `ids`. -/
def firstSeenOrder (ids pids : List String) : Prop :=
  pids.Nodup ∧ (∀ x, x ∈ pids ↔ x ∈ ids) ∧
  pids.Pairwise (fun a b => ids.indexOf a < ids.indexOf b)

/-- The identifier a row of the socket listing carries: the second field of a
non-empty line with two fields or more. -/
def unixRowPid (line : String) : Option String :=
  if line = "" then none
  else if (Fields line).length < 2 then none
  else some ((Fields line).getD 1 "")

/-- The rows of the socket listing after the header line. -/
def unixRows (output : String) : List String := (Split output '\n').drop 1

/-- The identifiers carried by the parsed rows of the socket listing, in the
order of the rows. -/
def unixRowPids (output : String) : List String := (unixRows output).filterMap unixRowPid

/-- The summary line of a row: identifier from the second field, process name
from the first, owning user from the third, empty when the row has no third
field. -/
def unixSummaryLine (line : String) : String :=
  "  PID: " ++ (Fields line).getD 1 "" ++ "  Name: " ++ (Fields line).getD 0 "" ++ "  User: " ++
    (if (Fields line).length > 2 then (Fields line).getD 2 "" else "") ++ "\n"

/-- The summary line of the first row that carries the identifier `pid`. -/
def unixLineFor (rows : List String) (pid : String) : String :=
  match rows.find? (fun line => unixRowPid line = some pid) with
  | some line => unixSummaryLine line
  | none => ""

/-- The concatenation of a list of strings. -/
def concatAll : List String → String
  | [] => ""
  | s :: rest => s ++ concatAll rest

/-- The port part of an address: the text after its last `:`, `none` when the
address has no `:`. -/
def portPart (addr : String) : Option String :=
  if ':' ∈ addr.data then some ⟨(addr.data.reverse.takeWhile (fun c => c ≠ ':')).reverse⟩
  else none

/-- The identifier a row of the connection table contributes for `port`: the
trailing field of a row with five fields or more whose local address (the
second field) has the decimal form of `port` as its port part, unless that
identifier is the sentinel `0`. -/
def winRowPid (port : Int) (line : String) : Option String :=
  if 5 ≤ (Fields line).length ∧ portPart ((Fields line).getD 1 "") = some (fmtInt port) ∧
      (Fields line).getLast? ≠ some "0" then (Fields line).getLast?
  else none

/-- The process a termination command is aimed at, `none` for every other
event. -/
def killedPid (e : Event) : Option String :=
  match e with
  | Event.exec argv =>
    if argv.take 2 = ["kill", "-9"] ∧ argv.length = 3 then argv.getLast?
    else if argv.take 3 = ["taskkill", "/F", "/PID"] ∧ argv.length = 4 then argv.getLast?
    else none
  | _ => none

/-- The processes whose termination was attempted, in order. -/
def terminated (tr : List Event) : List String := tr.filterMap killedPid

/-- An inspection command: `lsof`, `cmd /c netstat ...` or `tasklist`. -/
def isInspection (e : Event) : Bool :=
  match e with
  | Event.exec argv =>
    argv.head? = some "lsof" || argv.head? = some "cmd" || argv.head? = some "tasklist"
  | _ => false

/-- The events of a kill loop over `pids` when the commands answer `outs`, one
answer for each identifier: for each identifier in turn the command `cmd pid`,
then its report. -/
def killEvents (cmd : String → List String) (port : Int) :
    List String → List (Option String) → List Event
  | pid :: pids, o :: outs =>
    Event.exec (cmd pid) :: killReport pid port o :: killEvents cmd port pids outs
  | _, _ => []

/-- The events of `main` up to the summary of the processes found on `port`. -/
def summaryTrace (h : Host) (port : Int) : List Event :=
  (findProcessOnPort h port []).trace ++
    [Event.stdout ("Found process(es) on port " ++ fmtInt port ++ ":\n"),
     Event.stdout ((findProcessOnPort h port []).info ++ "\n")]

/-- The events of `main` up to the confirmation prompt. -/
def promptTrace (h : Host) (port : Int) : List Event :=
  summaryTrace h port ++ [Event.stdout "\nKill this process? [y/N]: "]

/-- A response that equals `y` or `yes` after trimming the surrounding white
space and ignoring the case of its letters (`Y`, `E`, `S` count as `y`, `e`,
`s`). -/
def saysYes (response : String) : Bool :=
  (TrimSpace response).data.map asciiLower = ['y'] ||
  (TrimSpace response).data.map asciiLower = ['y', 'e', 's']

/-- A host for the examples: the operating system `goos`, the listing utility
prints `listing`, `tasklist` names every process `node.exe`, the operator
answers `response`, and killing a process of `failing` fails. -/
def sampleHost (goos listing response : String) (failing : List String) : Host where
  goos := goos
  version := "dev"
  output := fun _ argv =>
    if argv.head? = some "tasklist" then ("\"node.exe\",\"77\",\"Console\",\"1\",\"10,000 K\"\r\n", none)
    else (listing, none)
  run := fun _ argv =>
    match argv.getLast? with
    | some pid => if pid ∈ failing then some "exit status 1" else none
    | none => none
  readString := fun _ => (response, none)
  lowerTable := id

/-! ## Auxiliary definitions of the proofs -/

/-- What one turn of the inspection loops does with an identifier. -/
def pushNew (pids : List String) (pid : String) : List String :=
  if pid ∈ pids then pids else pids ++ [pid]

/-- A list without its repetitions, the first occurrence of each element kept. -/
def keepFirst : List String → List String
  | [] => []
  | x :: xs => x :: (keepFirst xs).filter (fun y => decide (y ≠ x))

/-! ## Lemmas on argument interpretation -/

theorem parseArgs_yes (a : String) (rest : List String) (port : Int) (auto : Bool)
    (ha : isYesFlag a = true) : parseArgs (a :: rest) port auto = parseArgs rest port true := by
  simp only [isYesFlag, Bool.or_eq_true, decide_eq_true_eq] at ha
  rcases ha with rfl | rfl <;> simp [parseArgs]

theorem portOf_eq_some {a : String} {p : Int} (hp : portOf a = some p) :
    Atoi a = some p ∧ 1 ≤ p ∧ p ≤ 65535 := by
  unfold portOf at hp
  cases hA : Atoi a with
  | none => simp [hA] at hp
  | some q =>
    simp only [hA] at hp
    split at hp
    · rename_i hq
      cases hp
      exact ⟨rfl, hq.1, hq.2⟩
    · cases hp

theorem not_flag_cases {a : String} (ha : isFlag a = false) :
    ¬ (a = "-h" ∨ a = "--help") ∧ ¬ (a = "-v" ∨ a = "--version") ∧ ¬ (a = "-y" ∨ a = "--yes") := by
  simp only [isFlag, isHelpFlag, isVersionFlag, isYesFlag, Bool.or_eq_false_iff,
    decide_eq_false_iff_not] at ha
  tauto

theorem parseArgs_port (a : String) (rest : List String) (port : Int) (auto : Bool) (p : Int)
    (hf : isFlag a = false) (hp : portOf a = some p) :
    parseArgs (a :: rest) port auto = parseArgs rest p auto := by
  obtain ⟨hA, h1, h2⟩ := portOf_eq_some hp
  obtain ⟨n1, n2, n3⟩ := not_flag_cases hf
  have hr : ¬ (p < 1 ∨ p > 65535) := by omega
  simp only [parseArgs, n1, n2, n3, if_false, hA, hr]

theorem parseArgs_invalid (a : String) (rest : List String) (port : Int) (auto : Bool)
    (ha : isInvalidToken a = true) :
    parseArgs (a :: rest) port auto = ParseResult.invalid a := by
  simp only [isInvalidToken, Bool.and_eq_true, Bool.not_eq_true', Option.isNone_iff_eq_none] at ha
  obtain ⟨n1, n2, n3⟩ := not_flag_cases ha.1
  have hp := ha.2
  unfold portOf at hp
  cases hA : Atoi a with
  | none => simp only [parseArgs, n1, n2, n3, if_false, hA]
  | some q =>
    simp only [hA] at hp
    have hr : q < 1 ∨ q > 65535 := by
      by_contra hc
      have : 1 ≤ q ∧ q ≤ 65535 := by omega
      simp [this] at hp
    simp only [parseArgs, n1, n2, n3, if_false, hA, hr, if_true]

/-- A list that holds an invalid token never lets the argument loop run to its
end. -/
theorem parseArgs_not_done (pre post : List String) (bad : String)
    (hbad : isInvalidToken bad = true) (port : Int) (auto : Bool) :
    parseArgs (pre ++ bad :: post) port auto = ParseResult.help ∨
    parseArgs (pre ++ bad :: post) port auto = ParseResult.version ∨
    ∃ tok, parseArgs (pre ++ bad :: post) port auto = ParseResult.invalid tok := by
  induction pre generalizing port auto with
  | nil => exact Or.inr (Or.inr ⟨bad, by simpa using parseArgs_invalid bad post port auto hbad⟩)
  | cons a pre ih =>
    simp only [List.cons_append, parseArgs]
    split
    · exact Or.inl rfl
    · split
      · exact Or.inr (Or.inl rfl)
      · split
        · exact ih port true
        · split
          · exact Or.inr (Or.inr ⟨a, rfl⟩)
          · split
            · exact Or.inr (Or.inr ⟨a, rfl⟩)
            · exact ih _ auto

/-- Over auto-confirm flags and port tokens the loop ends with the last port
and with `autoConfirm` set when a flag was met. -/
theorem parseArgs_yes_ports (args : List String)
    (hall : ∀ a ∈ args, isYesFlag a = true ∨ isPortToken a = true) (port : Int) (auto : Bool) :
    parseArgs args port auto =
      ParseResult.done ((lastPort args).getD port) (auto || args.any isYesFlag) := by
  induction args generalizing port auto with
  | nil => simp [parseArgs, lastPort]
  | cons a rest ih =>
    have hrest : ∀ b ∈ rest, isYesFlag b = true ∨ isPortToken b = true :=
      fun b hb => hall b (List.mem_cons_of_mem a hb)
    rcases hall a (List.mem_cons_self a rest) with hy | hp
    · rw [parseArgs_yes a rest port auto hy, ih hrest]
      have hfl : isFlag a = true := by simp [isFlag, hy]
      simp [lastPort, List.filterMap_cons, hfl, hy]
    · simp only [isPortToken, Bool.and_eq_true, Bool.not_eq_true', Option.isSome_iff_exists] at hp
      obtain ⟨hf, p, hp⟩ := hp
      rw [parseArgs_port a rest port auto p hf hp, ih hrest]
      have hny : isYesFlag a = false := by
        simp only [isFlag, Bool.or_eq_false_iff] at hf
        exact hf.2
      have hlast : (lastPort (a :: rest)).getD port = (lastPort rest).getD p := by
        simp only [lastPort, List.filterMap_cons, hf, hp, Bool.false_eq_true, if_false]
        cases hl : List.filterMap (fun a => if isFlag a = true then none else portOf a) rest with
        | nil => simp
        | cons x xs => simp [List.getLast?_eq_getLast, List.getLast?_cons_cons]
      rw [hlast]
      simp [hny]

/-- When the loop runs to its end, the port is the one it started with and no
port token was met, or it is a port in `[1, 65535]`. -/
theorem parseArgs_done_port (args : List String) (port0 : Int) (auto0 : Bool) (port : Int)
    (auto : Bool) (hd : parseArgs args port0 auto0 = ParseResult.done port auto) :
    (port = port0 ∧ ∀ a ∈ args, isPortToken a = false) ∨ (1 ≤ port ∧ port ≤ 65535) := by
  induction args generalizing port0 auto0 with
  | nil =>
    simp only [parseArgs, ParseResult.done.injEq] at hd
    exact Or.inl ⟨hd.1.symm, by simp⟩
  | cons a rest ih =>
    simp only [parseArgs] at hd
    split at hd
    · cases hd
    · split at hd
      · cases hd
      · split at hd
        · rename_i hy
          rcases ih port0 true hd with ⟨h1, h2⟩ | h3
          · refine Or.inl ⟨h1, ?_⟩
            intro b hb
            rcases List.mem_cons.1 hb with rfl | hb
            · have : isYesFlag b = true := by simpa [isYesFlag] using hy
              simp [isPortToken, isFlag, this]
            · exact h2 b hb
          · exact Or.inr h3
        · split at hd
          · cases hd
          · split at hd
            · cases hd
            · rename_i p hA hr
              rcases ih p auto0 hd with ⟨h1, _⟩ | h3
              · exact Or.inr (by omega)
              · exact Or.inr h3

theorem lastPort_of_port_token (args : List String) (hport : ∃ a ∈ args, isPortToken a = true) :
    ∃ p, lastPort args = some p ∧ 1 ≤ p ∧ p ≤ 65535 := by
  obtain ⟨a, ha, hp⟩ := hport
  simp only [isPortToken, Bool.and_eq_true, Bool.not_eq_true', Option.isSome_iff_exists] at hp
  obtain ⟨hf, q, hq⟩ := hp
  have hmem : q ∈ args.filterMap (fun a => if isFlag a then none else portOf a) :=
    List.mem_filterMap.2 ⟨a, ha, by simp [hf, hq]⟩
  have hne : args.filterMap (fun a => if isFlag a then none else portOf a) ≠ [] :=
    List.ne_nil_of_mem hmem
  refine ⟨_, List.getLast?_eq_getLast _ hne, ?_⟩
  have hin := List.getLast_mem hne
  obtain ⟨b, _, hb⟩ := List.mem_filterMap.1 hin
  split at hb
  · cases hb
  · exact (portOf_eq_some hb).2

/-! ## Claims on argument interpretation -/

/-- C8: an argument list with no port token and no help or version flag (the
empty list, or only `-y`/`--yes` flags) makes the program exit with status 1
after the usage text, with no command executed (no inspection, no
termination); and when the argument loop runs to its end over a list with a
valid port token, the port is not zero and `main` goes on to inspection
instead of raising the missing-port error. -/
theorem C8_missing_port (h : Host) (prog : String) (args : List String) :
    ((∀ a ∈ args, isYesFlag a = true) →
      (main h (prog :: args)).exit = 1 ∧
      noCommand (main h (prog :: args)).trace ∧
      (main h (prog :: args)).trace =
        if args = [] then [printUsage]
        else [Event.stderr "Error: No port specified.\n", printUsage]) ∧
    (∀ port auto, parseArgs args 0 false = ParseResult.done port auto →
      (∃ a ∈ args, isPortToken a = true) →
        port ≠ 0 ∧ main h (prog :: args) = mainInspect h port auto) := by
  constructor
  · intro hall
    have hp := parseArgs_yes_ports args (fun a ha => Or.inl (hall a ha)) 0 false
    have hlast : lastPort args = none := by
      have : args.filterMap (fun a => if isFlag a then none else portOf a) = [] := by
        rw [List.filterMap_eq_nil_iff]
        intro a ha
        simp [isFlag, hall a ha]
      simp [lastPort, this]
    rw [hlast] at hp
    cases args with
    | nil => simp [main, noCommand, printUsage]
    | cons a rest =>
      have hm : main h (prog :: a :: rest) =
          { exit := 1, trace := [Event.stderr "Error: No port specified.\n", printUsage] } := by
        simp only [main, List.length_cons, List.drop_succ_cons, List.drop_zero, hp]
        simp
      rw [hm]
      simp [noCommand, printUsage]
  · intro port auto hd hport
    have hne : port ≠ 0 := by
      rcases parseArgs_done_port args 0 false port auto hd with ⟨_, h2⟩ | h3
      · obtain ⟨a, ha, hp⟩ := hport
        rw [h2 a ha] at hp
        cases hp
      · omega
    refine ⟨hne, ?_⟩
    obtain ⟨a, ha, _⟩ := hport
    have hlen : ¬ (prog :: args).length < 2 := by
      cases args with
      | nil => cases ha
      | cons _ _ => simp
    simp only [main, hlen, if_false, List.drop_succ_cons, List.drop_zero, hd, hne]

/-- C8, at `-y` alone and at `-y 8080`. -/
theorem C8_missing_port_witness :
    ((main quietHost ["killport", "-y"]).exit = 1 ∧
      noCommand (main quietHost ["killport", "-y"]).trace ∧
      (main quietHost ["killport", "-y"]).trace =
        if ["-y"] = ([] : List String) then [printUsage]
        else [Event.stderr "Error: No port specified.\n", printUsage]) ∧
    ((8080 : Int) ≠ 0 ∧
      main quietHost ["killport", "-y", "8080"] = mainInspect quietHost 8080 true) :=
  ⟨(C8_missing_port quietHost "killport" ["-y"]).1 (by decide),
   (C8_missing_port quietHost "killport" ["-y", "8080"]).2 8080 true (by decide)
     ⟨"8080", by decide, by decide⟩⟩

/-- C1 as stated fails: the list `-h abc` holds the invalid token `abc`, and the
program prints the usage text and exits with status 0. -/
theorem C1_counterexample :
    isInvalidToken "abc" = true ∧ "abc" ∈ ["-h", "abc"] ∧
    main quietHost ["killport", "-h", "abc"] = { exit := 0, trace := [printUsage] } :=
  ⟨by decide, by decide, rfl⟩

/-- C1, amended: an argument list that holds an invalid token makes the program
execute no command; and when every token before the invalid one is an
auto-confirm flag or a port token (no help or version flag, no earlier invalid
token), the program exits with status 1 and writes the one message `Error:
Invalid port number ...` for that token to the error stream. -/
theorem C1_invalid_token (h : Host) (prog : String) (pre post : List String) (bad : String)
    (hbad : isInvalidToken bad = true) :
    noCommand (main h (prog :: (pre ++ bad :: post))).trace ∧
    ((∀ a ∈ pre, isYesFlag a = true ∨ isPortToken a = true) →
      main h (prog :: (pre ++ bad :: post)) =
        { exit := 1, trace := [Event.stderr (invalidPortMessage bad)] }) := by
  have hlen : ¬ (prog :: (pre ++ bad :: post)).length < 2 := by
    simp only [List.length_cons, List.length_append]
    omega
  constructor
  · rcases parseArgs_not_done pre post bad hbad 0 false with hr | hr | ⟨tok, hr⟩ <;>
      · simp only [main, hlen, if_false, List.drop_succ_cons, List.drop_zero, hr]
        simp [noCommand, printUsage]
  · intro hall
    have hgo : ∀ (l : List String) (port : Int) (auto : Bool),
        (∀ a ∈ l, isYesFlag a = true ∨ isPortToken a = true) →
        parseArgs (l ++ bad :: post) port auto = ParseResult.invalid bad := by
      intro l
      induction l with
      | nil => intro port auto _; simpa using parseArgs_invalid bad post port auto hbad
      | cons a l ih =>
        intro port auto hl
        have hl2 : ∀ b ∈ l, isYesFlag b = true ∨ isPortToken b = true :=
          fun b hb => hl b (List.mem_cons_of_mem a hb)
        rcases hl a (List.mem_cons_self a l) with hy | hp
        · rw [List.cons_append, parseArgs_yes a _ port auto hy]
          exact ih port true hl2
        · simp only [isPortToken, Bool.and_eq_true, Bool.not_eq_true',
            Option.isSome_iff_exists] at hp
          obtain ⟨hf, p, hp⟩ := hp
          rw [List.cons_append, parseArgs_port a _ port auto p hf hp]
          exact ih p auto hl2
    simp only [main, hlen, if_false, List.drop_succ_cons, List.drop_zero, hgo pre 0 false hall,
      invalidPortMessage]

/-- C1, amended, at `-y 8080 70000 -h`. -/
theorem C1_invalid_token_witness :
    noCommand (main quietHost ("killport" :: (["-y", "8080"] ++ "70000" :: ["-h"]))).trace ∧
    ((∀ a ∈ ["-y", "8080"], isYesFlag a = true ∨ isPortToken a = true) →
      main quietHost ("killport" :: (["-y", "8080"] ++ "70000" :: ["-h"])) =
        { exit := 1, trace := [Event.stderr (invalidPortMessage "70000")] }) :=
  C1_invalid_token quietHost "killport" ["-y", "8080"] ["-h"] "70000" (by decide)

/-! ## First-seen order -/

theorem mem_keepFirst (ids : List String) (x : String) : x ∈ keepFirst ids ↔ x ∈ ids := by
  induction ids with
  | nil => simp [keepFirst]
  | cons a rest ih =>
    simp only [keepFirst, List.mem_cons, List.mem_filter, ih, decide_eq_true_eq]
    by_cases hx : x = a <;> simp [hx]

theorem nodup_keepFirst (ids : List String) : (keepFirst ids).Nodup := by
  induction ids with
  | nil => simp [keepFirst]
  | cons a rest ih =>
    simp only [keepFirst, List.nodup_cons, List.mem_filter, decide_eq_true_eq, ne_eq,
      not_true_eq_false, and_false, not_false_eq_true, true_and]
    exact ih.filter _

theorem pairwise_keepFirst (ids : List String) :
    (keepFirst ids).Pairwise (fun a b => ids.indexOf a < ids.indexOf b) := by
  induction ids with
  | nil => simp [keepFirst]
  | cons a rest ih =>
    simp only [keepFirst, List.pairwise_cons]
    constructor
    · intro b hb
      have hne : b ≠ a := by simpa using (List.mem_filter.1 hb).2
      rw [List.indexOf_cons_self, List.indexOf_cons_ne _ (Ne.symm hne)]
      exact Nat.succ_pos _
    · have hsub : ((keepFirst rest).filter (fun y => decide (y ≠ a))).Pairwise
          (fun x y => rest.indexOf x < rest.indexOf y) :=
        ih.sublist (List.filter_sublist _)
      refine hsub.imp_of_mem ?_
      intro x y hx hy hxy
      have hxa : x ≠ a := by simpa using (List.mem_filter.1 hx).2
      have hya : y ≠ a := by simpa using (List.mem_filter.1 hy).2
      rw [List.indexOf_cons_ne _ (Ne.symm hxa), List.indexOf_cons_ne _ (Ne.symm hya)]
      exact Nat.succ_lt_succ hxy

/-- The first occurrences of a list are in first-seen order. -/
theorem firstSeenOrder_keepFirst (ids : List String) : firstSeenOrder ids (keepFirst ids) :=
  ⟨nodup_keepFirst ids, mem_keepFirst ids, pairwise_keepFirst ids⟩

/-- The part of `keepFirst ids` not yet in `acc`, when `x` joins `acc`. -/
theorem keepFirst_cons_filter (x : String) (rest acc : List String) :
    (keepFirst (x :: rest)).filter (fun y => decide (y ∉ acc)) =
      if x ∈ acc then (keepFirst rest).filter (fun y => decide (y ∉ acc))
      else x :: (keepFirst rest).filter (fun y => decide (y ∉ acc ++ [x])) := by
  by_cases hx : x ∈ acc
  · simp only [keepFirst, hx, if_true, List.filter_cons, not_true_eq_false, decide_False,
      Bool.false_eq_true, if_false, List.filter_filter]
    apply List.filter_congr
    intro y _
    by_cases hy : y = x
    · subst hy; simp [hx]
    · simp [hy]
  · simp only [keepFirst, hx, if_false, List.filter_cons, not_false_eq_true, decide_True,
      if_true, List.filter_filter]
    congr 1
    apply List.filter_congr
    intro y _
    by_cases hy : y = x <;> simp [hy, hx]

/-! ## The loop of `findProcessUnix` -/

theorem unixStep_none (i : Nat) (line : String) (acc : UnixAcc)
    (hrow : unixRowPid line = none) : unixStep i line acc = acc := by
  unfold unixRowPid at hrow
  unfold unixStep
  by_cases hl : line = ""
  · simp [hl]
  · by_cases hf : (Fields line).length < 2
    · simp [hf]
    · simp [hl, hf] at hrow

theorem unixStep_some (i : Nat) (line : String) (acc : UnixAcc) (pid : String) (hi : i ≠ 0)
    (hrow : unixRowPid line = some pid) :
    unixStep i line acc =
      if pid ∈ acc.seenPids then acc
      else { pids := acc.pids ++ [pid], info := acc.info ++ unixSummaryLine line,
             seenPids := pid :: acc.seenPids } := by
  unfold unixRowPid at hrow
  unfold unixStep
  by_cases hl : line = ""
  · simp [hl] at hrow
  · by_cases hf : (Fields line).length < 2
    · simp [hl, hf] at hrow
    · simp only [hl, hf, if_false, Option.some.injEq] at hrow
      subst hrow
      simp only [hi, hl, or_self, if_false, hf, unixSummaryLine]

theorem unixLineFor_cons_ne (r : String) (rest : List String) (y : String)
    (h : unixRowPid r ≠ some y) : unixLineFor (r :: rest) y = unixLineFor rest y := by
  simp [unixLineFor, List.find?_cons, h]

theorem unixLineFor_cons_eq (r : String) (rest : List String) (y : String)
    (h : unixRowPid r = some y) : unixLineFor (r :: rest) y = unixSummaryLine r := by
  simp [unixLineFor, List.find?_cons, h]

theorem concatAll_map_congr {f g : String → String} (l : List String)
    (h : ∀ y ∈ l, f y = g y) : concatAll (l.map f) = concatAll (l.map g) := by
  rw [List.map_congr_left h]

/-- What the loop of `findProcessUnix` adds to its variables over the rows
`rows`: the first occurrences of the identifiers not yet seen, and one summary
line for each, from the first row that carries it. -/
theorem unixLoop_spec (rows : List String) (i : Nat) (hi : i ≠ 0) (acc : UnixAcc)
    (hinv : ∀ x, x ∈ acc.seenPids ↔ x ∈ acc.pids) :
    (unixLoop i rows acc).pids =
      acc.pids ++ (keepFirst (rows.filterMap unixRowPid)).filter (fun y => decide (y ∉ acc.pids)) ∧
    (unixLoop i rows acc).info =
      acc.info ++ concatAll
        (((keepFirst (rows.filterMap unixRowPid)).filter (fun y => decide (y ∉ acc.pids))).map
          (unixLineFor rows)) := by
  induction rows generalizing i acc with
  | nil => simp [unixLoop, keepFirst, concatAll]
  | cons r rest ih =>
    simp only [unixLoop]
    cases hrow : unixRowPid r with
    | none =>
      rw [unixStep_none i r acc hrow]
      obtain ⟨h1, h2⟩ := ih (i + 1) (Nat.succ_ne_zero i) acc hinv
      simp only [List.filterMap_cons, hrow]
      refine ⟨h1, ?_⟩
      rw [h2]
      congr 1
      apply concatAll_map_congr
      intro y _
      rw [unixLineFor_cons_ne r rest y (by simp [hrow])]
    | some p =>
      rw [unixStep_some i r acc p hi hrow]
      simp only [List.filterMap_cons, hrow, keepFirst_cons_filter]
      by_cases hp : p ∈ acc.pids
      · have hs : p ∈ acc.seenPids := (hinv p).2 hp
        simp only [hs, hp, if_true]
        obtain ⟨h1, h2⟩ := ih (i + 1) (Nat.succ_ne_zero i) acc hinv
        refine ⟨h1, ?_⟩
        rw [h2]
        congr 1
        apply concatAll_map_congr
        intro y hy
        have hy2 : y ∉ acc.pids := by simpa using (List.mem_filter.1 hy).2
        have hne : y ≠ p := fun e => hy2 (e ▸ hp)
        rw [unixLineFor_cons_ne r rest y (by simp [hrow, Ne.symm hne])]
      · have hs : p ∉ acc.seenPids := fun hc => hp ((hinv p).1 hc)
        simp only [hs, hp, if_false]
        have hinv2 : ∀ x, x ∈ p :: acc.seenPids ↔ x ∈ acc.pids ++ [p] := by
          intro x
          simp only [List.mem_cons, List.mem_append, List.mem_singleton, hinv x]
          tauto
        obtain ⟨h1, h2⟩ := ih (i + 1) (Nat.succ_ne_zero i)
          { pids := acc.pids ++ [p], info := acc.info ++ unixSummaryLine r,
            seenPids := p :: acc.seenPids } hinv2
        simp only at h1 h2
        refine ⟨by rw [h1]; simp, ?_⟩
        rw [h2, List.map_cons, concatAll, unixLineFor_cons_eq r rest p hrow, String.append_assoc]
        congr 2
        apply concatAll_map_congr
        intro y hy
        have hy2 : y ∉ acc.pids ++ [p] := by simpa using (List.mem_filter.1 hy).2
        have hne : y ≠ p := fun e => hy2 (by simp [e])
        rw [unixLineFor_cons_ne r rest y (by simp [hrow, Ne.symm hne])]

/-- What `findProcessUnix` returns when `lsof` answers `output` without error:
the first occurrences of the identifiers of the rows, and their summary
lines. -/
theorem findProcessUnix_spec (h : Host) (port : Int) (tr : List Event)
    (hok : (h.output tr (lsofCmd port)).2 = none) :
    (findProcessUnix h port tr).pids = keepFirst (unixRowPids (h.output tr (lsofCmd port)).1) ∧
    (findProcessUnix h port tr).info =
      concatAll ((keepFirst (unixRowPids (h.output tr (lsofCmd port)).1)).map
        (unixLineFor (unixRows (h.output tr (lsofCmd port)).1))) := by
  have hloop : ∀ lines : List String,
      (unixLoop 0 lines { pids := [], info := "", seenPids := [] }).pids =
        keepFirst ((lines.drop 1).filterMap unixRowPid) ∧
      (unixLoop 0 lines { pids := [], info := "", seenPids := [] }).info =
        concatAll ((keepFirst ((lines.drop 1).filterMap unixRowPid)).map
          (unixLineFor (lines.drop 1))) := by
    intro lines
    cases lines with
    | nil => simp [unixLoop, keepFirst, concatAll]
    | cons l0 rest =>
      have h0 : unixStep 0 l0 { pids := [], info := "", seenPids := [] } =
          { pids := [], info := "", seenPids := [] } := by simp [unixStep]
      obtain ⟨h1, h2⟩ := unixLoop_spec rest 1 (by decide)
        { pids := [], info := "", seenPids := [] } (by simp)
      simp only [unixLoop, h0, List.drop_succ_cons, List.drop_zero, zero_add]
      simpa using And.intro h1 h2
  unfold findProcessUnix
  simp only [hok, Option.isSome_none, Bool.false_eq_true, false_or]
  by_cases he : (h.output tr (lsofCmd port)).1.length = 0
  · have hemp : (h.output tr (lsofCmd port)).1 = "" := by
      have : (h.output tr (lsofCmd port)).1.data = [] := List.length_eq_zero.1 he
      exact String.ext this
    rw [if_pos he, hemp]
    have e1 : keepFirst (unixRowPids "") = [] := by decide
    have e2 : concatAll (List.map (unixLineFor (unixRows "")) (keepFirst (unixRowPids ""))) = "" := by
      decide
    exact ⟨e1.symm, e2.symm⟩
  · simp only [he, if_false]
    exact hloop _

/-! ## Lemmas on the string functions -/

theorem dropWhile_append_all {p : Char → Bool} (pre l : List Char) (hpre : ∀ c ∈ pre, p c = true) :
    (pre ++ l).dropWhile p = l.dropWhile p := by
  induction pre with
  | nil => rfl
  | cons a pre ih =>
    have ha : p a = true := hpre a (List.mem_cons_self a pre)
    simp only [List.cons_append, List.dropWhile_cons, ha, if_true]
    exact ih (fun c hc => hpre c (List.mem_cons_of_mem a hc))

theorem takeWhile_append_stop {p : Char → Bool} (l : List Char) (a : Char) (r : List Char)
    (hl : ∀ c ∈ l, p c = true) (ha : p a = false) : (l ++ a :: r).takeWhile p = l := by
  induction l with
  | nil => simp [List.takeWhile_cons, ha]
  | cons b l ih =>
    have hb : p b = true := hl b (List.mem_cons_self b l)
    simp only [List.cons_append, List.takeWhile_cons, hb, if_true]
    rw [ih (fun c hc => hl c (List.mem_cons_of_mem b hc))]

theorem all_of_mem_takeWhile {p : Char → Bool} (l : List Char) :
    ∀ c ∈ l.takeWhile p, p c = true := by
  induction l with
  | nil => simp
  | cons a l ih =>
    intro c hc
    by_cases ha : p a = true
    · simp only [List.takeWhile_cons, ha, if_true, List.mem_cons] at hc
      rcases hc with rfl | hc
      · exact ha
      · exact ih c hc
    · simp [List.takeWhile_cons, ha] at hc

/-- A string is its trimmed form between two runs of white space. -/
theorem trimSpaceL_decomp (l : List Char) :
    ∃ pre post, l = pre ++ trimSpaceL l ++ post ∧
      (∀ c ∈ pre, isSpace c = true) ∧ (∀ c ∈ post, isSpace c = true) := by
  refine ⟨l.takeWhile isSpace, (((l.dropWhile isSpace).reverse).takeWhile isSpace).reverse, ?_,
    all_of_mem_takeWhile l, ?_⟩
  · have h1 : l = l.takeWhile isSpace ++ l.dropWhile isSpace :=
      (List.takeWhile_append_dropWhile isSpace l).symm
    have h2 : (l.dropWhile isSpace).reverse =
        ((l.dropWhile isSpace).reverse).takeWhile isSpace ++
          ((l.dropWhile isSpace).reverse).dropWhile isSpace :=
      (List.takeWhile_append_dropWhile isSpace _).symm
    have h3 : l.dropWhile isSpace =
        (((l.dropWhile isSpace).reverse).dropWhile isSpace).reverse ++
          (((l.dropWhile isSpace).reverse).takeWhile isSpace).reverse := by
      have := congrArg List.reverse h2
      rwa [List.reverse_reverse, List.reverse_append] at this
    unfold trimSpaceL
    rw [List.append_assoc, ← h3]
    exact h1
  · intro c hc
    exact all_of_mem_takeWhile _ c (List.mem_reverse.1 hc)

/-- Trimming a core that starts and ends with a non-blank, between two runs of
white space, gives the core back. -/
theorem trimSpaceL_of_core (pre post : List Char) (a : Char) (mid : List Char) (b : Char)
    (core : List Char) (hcore : core = a :: mid) (hlast : ∃ r, core.reverse = b :: r)
    (hpre : ∀ c ∈ pre, isSpace c = true) (hpost : ∀ c ∈ post, isSpace c = true)
    (ha : isSpace a = false) (hb : isSpace b = false) :
    trimSpaceL (pre ++ core ++ post) = core := by
  obtain ⟨r, hr⟩ := hlast
  unfold trimSpaceL
  rw [List.append_assoc, dropWhile_append_all pre _ hpre, hcore, List.cons_append,
    List.dropWhile_cons, ha]
  simp only [Bool.false_eq_true, if_false]
  rw [← List.cons_append, ← hcore, List.reverse_append,
    dropWhile_append_all post.reverse _ (fun c hc => hpost c (List.mem_reverse.1 hc)), hr,
    List.dropWhile_cons, hb]
  simp only [Bool.false_eq_true, if_false]
  rw [← hr, List.reverse_reverse]

theorem fieldsL_spaces (ws cur : List Char) (hws : ∀ c ∈ ws, isSpace c = true) :
    fieldsL ws cur = if cur.isEmpty then [] else [cur.reverse] := by
  induction ws generalizing cur with
  | nil => rfl
  | cons c ws ih =>
    have hc : isSpace c = true := hws c (List.mem_cons_self c ws)
    have hrest : ∀ d ∈ ws, isSpace d = true := fun d hd => hws d (List.mem_cons_of_mem c hd)
    simp only [fieldsL, hc, if_true, ih [] hrest]
    simp

theorem fieldsL_append_spaces (l ws cur : List Char) (hws : ∀ c ∈ ws, isSpace c = true) :
    fieldsL (l ++ ws) cur = fieldsL l cur := by
  induction l generalizing cur with
  | nil => simpa [fieldsL] using fieldsL_spaces ws cur hws
  | cons a l ih => simp only [List.cons_append, fieldsL, List.append_eq, ih]

theorem fieldsL_spaces_append (pre l : List Char) (hpre : ∀ c ∈ pre, isSpace c = true) :
    fieldsL (pre ++ l) [] = fieldsL l [] := by
  induction pre with
  | nil => rfl
  | cons a pre ih =>
    have ha : isSpace a = true := hpre a (List.mem_cons_self a pre)
    simp only [List.cons_append, fieldsL, ha, if_true, List.isEmpty_nil]
    exact ih (fun c hc => hpre c (List.mem_cons_of_mem a hc))

/-- The fields of a line are the fields of the trimmed line. -/
theorem Fields_TrimSpace (s : String) : Fields (TrimSpace s) = Fields s := by
  obtain ⟨pre, post, hdec, hpre, hpost⟩ := trimSpaceL_decomp s.data
  unfold Fields TrimSpace
  congr 1
  conv_rhs => rw [hdec]
  rw [List.append_assoc, fieldsL_spaces_append pre _ hpre, fieldsL_append_spaces _ post [] hpost]

/-! ## The port part of an address -/

theorem digitChar_ne_colon : ∀ m, m < 10 → Nat.digitChar m ≠ ':' := by decide

theorem toDigitsCore_no_colon (fuel n : Nat) (ds : List Char) (hds : ∀ c ∈ ds, c ≠ ':') :
    ∀ c ∈ Nat.toDigitsCore 10 fuel n ds, c ≠ ':' := by
  induction fuel generalizing n ds with
  | zero => simpa [Nat.toDigitsCore] using hds
  | succ fuel ih =>
    have hcons : ∀ c ∈ Nat.digitChar (n % 10) :: ds, c ≠ ':' := by
      intro c hc
      rcases List.mem_cons.1 hc with rfl | hc
      · exact digitChar_ne_colon _ (Nat.mod_lt _ (by decide))
      · exact hds c hc
    simp only [Nat.toDigitsCore]
    split
    · exact hcons
    · exact ih _ _ hcons

/-- The decimal form of a port has no `:` in it. -/
theorem fmtInt_no_colon (port : Int) : ∀ c ∈ (fmtInt port).data, c ≠ ':' := by
  have hnat : ∀ n, ∀ c ∈ natDigits n, c ≠ ':' := fun n =>
    toDigitsCore_no_colon (n + 1) n [] (by simp)
  unfold fmtInt
  split
  · intro c hc
    rcases List.mem_cons.1 hc with rfl | hc
    · decide
    · exact hnat _ c hc
  · exact hnat _

/-- The test of `findProcessWindows` on the local address, `HasSuffix(localAddr,
":<port>")`, holds exactly when the port part of the address is the decimal
form of the port. -/
theorem HasSuffix_iff_portPart (addr : String) (port : Int) :
    HasSuffix addr (":" ++ fmtInt port) = true ↔ portPart addr = some (fmtInt port) := by
  have hd := fmtInt_no_colon port
  have hdata : (":" ++ fmtInt port).data = ':' :: (fmtInt port).data := rfl
  unfold HasSuffix portPart
  rw [hdata, List.isSuffixOf_iff_suffix]
  constructor
  · rintro ⟨t, ht⟩
    have hmem : ':' ∈ addr.data := by rw [← ht]; simp
    have hrev : addr.data.reverse = (fmtInt port).data.reverse ++ ':' :: t.reverse := by
      rw [← ht]; simp
    rw [if_pos hmem, hrev,
      takeWhile_append_stop _ ':' _ (fun c hc => by simpa using hd c (List.mem_reverse.1 hc))
        (by simp),
      List.reverse_reverse]
  · intro hp
    by_cases hmem : ':' ∈ addr.data
    · rw [if_pos hmem] at hp
      have hp2 : (addr.data.reverse.takeWhile (fun c => decide (c ≠ ':'))).reverse =
          (fmtInt port).data := congrArg String.data (Option.some.inj hp)
      have hne : addr.data.reverse.dropWhile (fun c => decide (c ≠ ':')) ≠ [] := by
        intro hnil
        have hall := (List.dropWhile_eq_nil_iff).1 hnil ':' (List.mem_reverse.2 hmem)
        simp at hall
      obtain ⟨x, r, hxr⟩ := List.exists_cons_of_ne_nil hne
      have hx : x = ':' := by
        have hhead := List.head_dropWhile_not (fun c => decide (c ≠ ':')) addr.data.reverse hne
        simp only [hxr, List.head_cons] at hhead
        simpa using hhead
      have hsplit := List.takeWhile_append_dropWhile (fun c => decide (c ≠ ':')) addr.data.reverse
      rw [hxr, hx] at hsplit
      refine ⟨r.reverse, ?_⟩
      have := congrArg List.reverse hsplit
      rw [List.reverse_reverse, List.reverse_append, List.reverse_cons, hp2] at this
      rw [← this]
      simp
    · rw [if_neg hmem] at hp
      cases hp

/-! ## The loop of `findProcessWindows` -/

theorem getLast?_eq_some_getD (l : List String) (hl : 0 < l.length) :
    l.getLast? = some (l.getD (l.length - 1) "") := by
  rw [List.getLast?_eq_getElem?, List.getD_eq_getElem?_getD,
    List.getElem?_eq_getElem (by omega : l.length - 1 < l.length)]
  rfl

theorem Fields_of_TrimSpace_empty (line : String) (ht : TrimSpace line = "") :
    Fields line = [] := by
  rw [← Fields_TrimSpace, ht]
  decide

theorem winStep_none (h : Host) (port : Int) (line : String) (acc : WinAcc)
    (hrow : winRowPid port line = none) : winStep h port line acc = acc := by
  unfold winStep
  simp only [Fields_TrimSpace]
  by_cases ht : TrimSpace line = ""
  · simp [ht]
  · by_cases hf : (Fields line).length < 5
    · simp [hf]
    · by_cases hs : HasSuffix ((Fields line).getD 1 "") (":" ++ fmtInt port) = true
      · have hpp := (HasSuffix_iff_portPart _ port).1 hs
        have hlast := getLast?_eq_some_getD (Fields line) (by omega)
        unfold winRowPid at hrow
        have h5 : 5 ≤ (Fields line).length := by omega
        by_cases h0 : (Fields line).getD ((Fields line).length - 1) "" = "0"
        · simp only [ht, hf, hs, h0, if_false, if_true, Bool.not_true, Bool.false_eq_true,
            true_or]
        · exfalso
          rw [if_pos ⟨h5, hpp, by rw [hlast]; simpa using h0⟩, hlast] at hrow
          cases hrow
      · rw [Bool.not_eq_true] at hs
        simp only [ht, hf, hs, if_false, if_true, Bool.not_false]

theorem winStep_some (h : Host) (port : Int) (line : String) (acc : WinAcc) (pid : String)
    (hrow : winRowPid port line = some pid) :
    winStep h port line acc =
      if pid ∈ acc.seenPids then acc
      else
        { pids := acc.pids ++ [pid],
          info := acc.info ++
            ("  PID: " ++ pid ++ "  Name: " ++
              windowsProcessName (h.output acc.trace (tasklistCmd pid)).1 ++ "  State: " ++
              (Fields line).getD 3 "" ++ "\n"),
          seenPids := pid :: acc.seenPids,
          trace := acc.trace ++ [Event.exec (tasklistCmd pid)] } := by
  unfold winRowPid at hrow
  split at hrow
  · rename_i hc
    obtain ⟨h5, hpp, h0⟩ := hc
    have hlast := getLast?_eq_some_getD (Fields line) (by omega)
    rw [hlast] at hrow h0
    have hpid : (Fields line).getD ((Fields line).length - 1) "" = pid := Option.some.inj hrow
    have hs := (HasSuffix_iff_portPart _ port).2 hpp
    have hf : ¬ (Fields line).length < 5 := by omega
    have ht : TrimSpace line ≠ "" := by
      intro hc
      rw [Fields_of_TrimSpace_empty line hc] at h5
      simp at h5
    have hp0 : pid ≠ "0" := by
      intro hc
      apply h0
      rw [hpid, hc]
    unfold winStep
    simp only [Fields_TrimSpace, ht, if_false, hf, hs, Bool.not_true, Bool.false_eq_true, hpid,
      hp0, false_or]
  · cases hrow

/-- What the loop of `findProcessWindows` adds to `pids` over the lines
`lines`: the first occurrences of the identifiers of the rows that are not yet
seen. -/
theorem winLoop_pids (h : Host) (port : Int) (lines : List String) (acc : WinAcc)
    (hinv : ∀ x, x ∈ acc.seenPids ↔ x ∈ acc.pids) :
    (winLoop h port lines acc).pids =
      acc.pids ++
        (keepFirst (lines.filterMap (winRowPid port))).filter (fun y => decide (y ∉ acc.pids)) := by
  induction lines generalizing acc with
  | nil => simp [winLoop, keepFirst]
  | cons r rest ih =>
    simp only [winLoop]
    cases hrow : winRowPid port r with
    | none =>
      rw [winStep_none h port r acc hrow]
      simpa [List.filterMap_cons, hrow] using ih acc hinv
    | some p =>
      rw [winStep_some h port r acc p hrow]
      simp only [List.filterMap_cons, hrow, keepFirst_cons_filter]
      by_cases hp : p ∈ acc.pids
      · have hs : p ∈ acc.seenPids := (hinv p).2 hp
        simp only [hs, hp, if_true]
        exact ih acc hinv
      · have hs : p ∉ acc.seenPids := fun hc => hp ((hinv p).1 hc)
        simp only [hs, hp, if_false]
        rw [ih _ (by
          intro x
          simp only [List.mem_cons, List.mem_append, List.mem_singleton, hinv x]
          tauto)]
        simp

/-- The loop of `findProcessWindows` only adds inspection commands to the
events. -/
theorem winLoop_trace (h : Host) (port : Int) (lines : List String) (acc : WinAcc) :
    ∃ evs, (winLoop h port lines acc).trace = acc.trace ++ evs ∧
      ∀ e ∈ evs, isInspection e = true := by
  induction lines generalizing acc with
  | nil => exact ⟨[], by simp [winLoop], by simp⟩
  | cons r rest ih =>
    simp only [winLoop]
    cases hrow : winRowPid port r with
    | none =>
      rw [winStep_none h port r acc hrow]
      exact ih acc
    | some p =>
      rw [winStep_some h port r acc p hrow]
      by_cases hs : p ∈ acc.seenPids
      · simp only [hs, if_true]
        exact ih acc
      · simp only [hs, if_false]
        obtain ⟨evs, he, hall⟩ := ih
          { pids := acc.pids ++ [p],
            info := acc.info ++
              ("  PID: " ++ p ++ "  Name: " ++
                windowsProcessName (h.output acc.trace (tasklistCmd p)).1 ++ "  State: " ++
                (Fields r).getD 3 "" ++ "\n"),
            seenPids := p :: acc.seenPids,
            trace := acc.trace ++ [Event.exec (tasklistCmd p)] }
        refine ⟨Event.exec (tasklistCmd p) :: evs, by rw [he]; simp, ?_⟩
        intro e hmem
        rcases List.mem_cons.1 hmem with rfl | hmem
        · simp [isInspection, tasklistCmd]
        · exact hall e hmem

/-- What `findProcessWindows` returns for the identifiers when `netstat` answers
without error. -/
theorem findProcessWindows_pids (h : Host) (port : Int) (tr : List Event)
    (hok : (h.output tr (netstatCmd port)).2 = none) :
    (findProcessWindows h port tr).pids =
      keepFirst ((Split (h.output tr (netstatCmd port)).1 '\n').filterMap (winRowPid port)) := by
  unfold findProcessWindows
  simp only [hok, Option.isSome_none, Bool.false_eq_true, false_or]
  by_cases he : (h.output tr (netstatCmd port)).1.length = 0
  · have hemp : (h.output tr (netstatCmd port)).1 = "" :=
      String.ext (List.length_eq_zero.1 he)
    rw [if_pos he, hemp]
    have e1 : (Split "" '\n').filterMap (winRowPid port) = [] := by
      have : Split "" '\n' = [""] := by decide
      rw [this]
      have hF : Fields "" = [] := by decide
      simp [winRowPid, hF]
    rw [e1]
    rfl
  · rw [if_neg he]
    simpa using winLoop_pids h port _
      { pids := [], info := "", seenPids := [], trace := tr ++ [Event.exec (netstatCmd port)] }
      (by simp)

/-! ## The events of inspection -/

theorem findProcessUnix_trace (h : Host) (port : Int) (tr : List Event) :
    (findProcessUnix h port tr).trace = tr ++ [Event.exec (lsofCmd port)] ∧
    (findProcessUnix h port tr).err = none := by
  unfold findProcessUnix
  simp only
  split <;> exact ⟨rfl, rfl⟩

/-- Inspection adds only inspection commands to the events. -/
theorem findProcessOnPort_trace (h : Host) (port : Int) (tr : List Event) :
    ∃ evs, (findProcessOnPort h port tr).trace = tr ++ evs ∧
      ∀ e ∈ evs, isInspection e = true := by
  unfold findProcessOnPort
  split
  · unfold findProcessWindows
    simp only
    split
    · exact ⟨[Event.exec (netstatCmd port)], rfl, by simp [isInspection, netstatCmd]⟩
    · obtain ⟨evs, he, hall⟩ := winLoop_trace h port
        (Split (h.output tr (netstatCmd port)).1 '\n')
        { pids := [], info := "", seenPids := [], trace := tr ++ [Event.exec (netstatCmd port)] }
      refine ⟨Event.exec (netstatCmd port) :: evs, by simp only [he]; simp, ?_⟩
      intro e hmem
      rcases List.mem_cons.1 hmem with rfl | hmem
      · simp [isInspection, netstatCmd]
      · exact hall e hmem
  · split
    · exact ⟨[Event.exec (lsofCmd port)], (findProcessUnix_trace h port tr).1,
        by simp [isInspection, lsofCmd]⟩
    · exact ⟨[], by simp, by simp⟩

/-- An error of inspection means an unsupported operating system. -/
theorem findProcessOnPort_err_none (h : Host) (port : Int) (tr : List Event)
    (herr : (findProcessOnPort h port tr).err = none) :
    h.goos = "windows" ∨ h.goos = "darwin" ∨ h.goos = "linux" := by
  unfold findProcessOnPort at herr
  by_cases hw : h.goos = "windows"
  · exact Or.inl hw
  · by_cases hu : h.goos = "darwin" ∨ h.goos = "linux"
    · exact Or.inr hu
    · simp [hw, hu] at herr

theorem killedPid_of_isInspection (e : Event) (he : isInspection e = true) :
    killedPid e = none := by
  cases e with
  | exec argv =>
    simp only [isInspection, Bool.or_eq_true, decide_eq_true_eq] at he
    unfold killedPid
    match argv, he with
    | [], he => simp
    | [_], he => simp
    | a :: b :: rest, he =>
      simp only [List.head?_cons, Option.some.injEq] at he
      have h1 : a ≠ "kill" := by rcases he with (rfl | rfl) | rfl <;> decide
      have h2 : a ≠ "taskkill" := by rcases he with (rfl | rfl) | rfl <;> decide
      cases rest with
      | nil => simp [h1]
      | cons c rest => simp [h1, h2]
  | stdout _ => rfl
  | stderr _ => rfl
  | stdin => rfl

theorem terminated_append (a b : List Event) : terminated (a ++ b) = terminated a ++ terminated b := by
  simp [terminated]

theorem terminated_of_inspection (evs : List Event) (h : ∀ e ∈ evs, isInspection e = true) :
    terminated evs = [] := by
  unfold terminated
  rw [List.filterMap_eq_nil_iff]
  exact fun e he => killedPid_of_isInspection e (h e he)

/-- Inspection from the empty event list attempts no termination, reads nothing
and prints nothing. -/
theorem inspection_quiet (h : Host) (port : Int) :
    terminated (findProcessOnPort h port []).trace = [] ∧
    Event.stdin ∉ (findProcessOnPort h port []).trace ∧
    ∀ text, Event.stdout text ∉ (findProcessOnPort h port []).trace := by
  obtain ⟨evs, he, hall⟩ := findProcessOnPort_trace h port []
  rw [he, List.nil_append]
  refine ⟨terminated_of_inspection evs hall, ?_, ?_⟩
  · intro hmem
    have := hall _ hmem
    simp [isInspection] at this
  · intro text hmem
    have := hall _ hmem
    simp [isInspection] at this

/-! ## The kill loops -/

theorem killedPid_killCmd (pid : String) : killedPid (Event.exec (killCmd pid)) = some pid := by
  simp [killedPid, killCmd]

theorem killedPid_taskkillCmd (pid : String) :
    killedPid (Event.exec (taskkillCmd pid)) = some pid := by
  simp [killedPid, taskkillCmd]

theorem killedPid_killReport (pid : String) (port : Int) (o : Option String) :
    killedPid (killReport pid port o) = none := by
  cases o <;> rfl

theorem terminated_killEvents (cmd : String → List String) (port : Int)
    (hcmd : ∀ pid, killedPid (Event.exec (cmd pid)) = some pid) (pids : List String)
    (outs : List (Option String)) (hlen : outs.length = pids.length) :
    terminated (killEvents cmd port pids outs) = pids := by
  induction pids generalizing outs with
  | nil => cases outs <;> simp [killEvents, terminated]
  | cons pid pids ih =>
    cases outs with
    | nil => simp at hlen
    | cons o outs =>
      have hl : outs.length = pids.length := by simpa using hlen
      have := ih outs hl
      unfold terminated at this ⊢
      simp [killEvents, List.filterMap_cons, hcmd, killedPid_killReport, this]

theorem stdin_not_mem_killEvents (cmd : String → List String) (port : Int) (pids : List String)
    (outs : List (Option String)) : Event.stdin ∉ killEvents cmd port pids outs := by
  induction pids generalizing outs with
  | nil => cases outs <;> simp [killEvents]
  | cons pid pids ih =>
    cases outs with
    | nil => simp [killEvents]
    | cons o outs =>
      have := ih outs
      cases o <;> simp [killEvents, killReport, this]

/-- A loop that runs `cmd pid` for each identifier and reports the answer leaves
the events of `killEvents`, for the answers the host gives along the way, and
returns no error. -/
theorem killLoop_spec (h : Host) (cmd : String → List String)
    (f : List String → Int → List Event → List Event × Option String)
    (hnil : ∀ port tr, f [] port tr = (tr, none))
    (hcons : ∀ pid rest port tr, f (pid :: rest) port tr =
      f rest port (tr ++ [Event.exec (cmd pid), killReport pid port (h.run tr (cmd pid))]))
    (pids : List String) (port : Int) (tr : List Event) :
    ∃ outs : List (Option String), outs.length = pids.length ∧
      f pids port tr = (tr ++ killEvents cmd port pids outs, none) ∧
      ∀ i, i < pids.length →
        outs[i]? = some (h.run (tr ++ killEvents cmd port (pids.take i) (outs.take i))
          (cmd (pids.getD i ""))) := by
  induction pids generalizing tr with
  | nil => exact ⟨[], rfl, by simp [hnil, killEvents], by simp⟩
  | cons pid rest ih =>
    obtain ⟨outs, hlen, hf, hout⟩ :=
      ih (tr ++ [Event.exec (cmd pid), killReport pid port (h.run tr (cmd pid))])
    refine ⟨h.run tr (cmd pid) :: outs, by simp [hlen], ?_, ?_⟩
    · rw [hcons, hf]
      simp [killEvents]
    · intro i hi
      cases i with
      | zero => simp [killEvents]
      | succ i =>
        have hi2 : i < rest.length := by simpa using hi
        have := hout i hi2
        simpa [killEvents, List.take_succ_cons] using this

theorem killProcessesUnix_spec (h : Host) (pids : List String) (port : Int) (tr : List Event) :
    ∃ outs : List (Option String), outs.length = pids.length ∧
      killProcessesUnix h pids port tr = (tr ++ killEvents killCmd port pids outs, none) ∧
      ∀ i, i < pids.length →
        outs[i]? = some (h.run (tr ++ killEvents killCmd port (pids.take i) (outs.take i))
          (killCmd (pids.getD i ""))) :=
  killLoop_spec h killCmd (killProcessesUnix h) (fun _ _ => rfl) (fun _ _ _ _ => rfl) pids port tr

theorem killProcessesWindows_spec (h : Host) (pids : List String) (port : Int)
    (tr : List Event) :
    ∃ outs : List (Option String), outs.length = pids.length ∧
      killProcessesWindows h pids port tr = (tr ++ killEvents taskkillCmd port pids outs, none) ∧
      ∀ i, i < pids.length →
        outs[i]? = some (h.run (tr ++ killEvents taskkillCmd port (pids.take i) (outs.take i))
          (taskkillCmd (pids.getD i ""))) :=
  killLoop_spec h taskkillCmd (killProcessesWindows h) (fun _ _ => rfl) (fun _ _ _ _ => rfl)
    pids port tr

/-- On a supported operating system `killProcesses` returns no error, attempts
the termination of exactly `pids`, in order, and reads nothing. -/
theorem killProcesses_supported (h : Host) (pids : List String) (port : Int) (tr : List Event)
    (hos : h.goos = "windows" ∨ h.goos = "darwin" ∨ h.goos = "linux") :
    (killProcesses h pids port tr).2 = none ∧
    ∃ evs, (killProcesses h pids port tr).1 = tr ++ evs ∧ terminated evs = pids ∧
      Event.stdin ∉ evs := by
  unfold killProcesses
  by_cases hw : h.goos = "windows"
  · obtain ⟨outs, hlen, hf, _⟩ := killProcessesWindows_spec h pids port tr
    rw [if_pos hw, hf]
    exact ⟨rfl, _, rfl, terminated_killEvents taskkillCmd port killedPid_taskkillCmd pids outs hlen,
      stdin_not_mem_killEvents _ _ _ _⟩
  · have hu : h.goos = "darwin" ∨ h.goos = "linux" := hos.resolve_left hw
    obtain ⟨outs, hlen, hf, _⟩ := killProcessesUnix_spec h pids port tr
    rw [if_neg hw, if_pos hu, hf]
    exact ⟨rfl, _, rfl, terminated_killEvents killCmd port killedPid_killCmd pids outs hlen,
      stdin_not_mem_killEvents _ _ _ _⟩

/-- On a supported operating system the last part of `main` exits with status 0
after the events of `killProcesses`. -/
theorem mainKill_supported (h : Host) (pids : List String) (port : Int) (tr : List Event)
    (hos : h.goos = "windows" ∨ h.goos = "darwin" ∨ h.goos = "linux") :
    mainKill h pids port tr = { exit := 0, trace := (killProcesses h pids port tr).1 } := by
  have := (killProcesses_supported h pids port tr hos).1
  simp only [mainKill, this]

/-! ## The path of `main` -/

/-- When the argument loop ends with a non-zero port, `main` goes on to
inspection. -/
theorem main_of_done (h : Host) (prog : String) (args : List String) (port : Int) (auto : Bool)
    (hd : parseArgs args 0 false = ParseResult.done port auto) (hp : port ≠ 0) :
    main h (prog :: args) = mainInspect h port auto := by
  have hlen : ¬ (prog :: args).length < 2 := by
    cases args with
    | nil =>
      simp only [parseArgs, ParseResult.done.injEq] at hd
      exact absurd hd.1.symm hp
    | cons _ _ => simp
  simp only [main, hlen, if_false, List.drop_succ_cons, List.drop_zero, hd, hp]

/-- After a successful inspection `main` reports that nothing was found, or
shows the summary and goes on to the confirmation. -/
theorem mainInspect_ok (h : Host) (port : Int) (auto : Bool)
    (herr : (findProcessOnPort h port []).err = none) :
    mainInspect h port auto =
      if (findProcessOnPort h port []).pids = [] then
        { exit := 0,
          trace := (findProcessOnPort h port []).trace ++
            [Event.stdout ("No process found running on port " ++ fmtInt port ++ "\n")] }
      else mainConfirm h (findProcessOnPort h port []).pids port auto (summaryTrace h port) := by
  simp only [mainInspect, herr, summaryTrace, List.length_eq_zero]

theorem terminated_summaryTrace (h : Host) (port : Int) : terminated (summaryTrace h port) = [] := by
  unfold summaryTrace
  rw [terminated_append, (inspection_quiet h port).1]
  rfl

/-! ## Claims on inspection -/

/-- C2: the identifiers `findProcessUnix` returns have no duplicates; when the
socket listing was read without error they are the identifiers of the parsed
rows in the order of their first appearance; rows carrying `a, b, a, c` (three
different identifiers) give exactly `[a, b, c]`; and under `-y` on a Unix host
the terminations `main` attempts are exactly the identifiers returned, in that
order. -/
theorem C2_unix_first_seen (h : Host) (port : Int) (tr : List Event) :
    (findProcessUnix h port tr).pids.Nodup ∧
    ((h.output tr (lsofCmd port)).2 = none →
      firstSeenOrder (unixRowPids (h.output tr (lsofCmd port)).1)
        (findProcessUnix h port tr).pids) ∧
    (∀ a b c : String, a ≠ b → a ≠ c → b ≠ c → (h.output tr (lsofCmd port)).2 = none →
      unixRowPids (h.output tr (lsofCmd port)).1 = [a, b, a, c] →
      (findProcessUnix h port tr).pids = [a, b, c]) ∧
    (∀ (prog : String) (args : List String), (h.goos = "darwin" ∨ h.goos = "linux") →
      parseArgs args 0 false = ParseResult.done port true → port ≠ 0 →
      terminated (main h (prog :: args)).trace = (findProcessUnix h port []).pids) := by
  refine ⟨?_, ?_, ?_, ?_⟩
  · cases hok : (h.output tr (lsofCmd port)).2 with
    | none =>
      rw [(findProcessUnix_spec h port tr hok).1]
      exact nodup_keepFirst _
    | some e => simp [findProcessUnix, hok]
  · intro hok
    rw [(findProcessUnix_spec h port tr hok).1]
    exact firstSeenOrder_keepFirst _
  · intro a b c hab hac hbc hok hrows
    rw [(findProcessUnix_spec h port tr hok).1, hrows]
    simp [keepFirst, List.filter_cons, hab, hac, hbc, Ne.symm hab, Ne.symm hac, Ne.symm hbc]
  · intro prog args hu hd hp
    have hw : h.goos ≠ "windows" := by
      rcases hu with hu | hu <;> rw [hu] <;> decide
    have hfind : findProcessOnPort h port [] = findProcessUnix h port [] := by
      simp only [findProcessOnPort, hw, if_false, hu, if_true]
    have herr : (findProcessOnPort h port []).err = none := by
      rw [hfind]; exact (findProcessUnix_trace h port []).2
    rw [main_of_done h prog args port true hd hp, mainInspect_ok h port true herr, ← hfind]
    by_cases hnil : (findProcessOnPort h port []).pids = []
    · rw [if_pos hnil, hnil]
      simp only [terminated_append, (inspection_quiet h port).1]
      rfl
    · rw [if_neg hnil]
      simp only [mainConfirm, Bool.not_true, Bool.false_eq_true, if_false]
      rw [mainKill_supported h _ port _ (Or.inr hu)]
      obtain ⟨_, evs, he, hterm, _⟩ :=
        killProcesses_supported h (findProcessOnPort h port []).pids port (summaryTrace h port)
          (Or.inr hu)
      simp only [he, terminated_append, terminated_summaryTrace, hterm, List.nil_append]

/-- C2, on Linux with a listing whose rows carry the identifiers 101, 202, 101,
303, under `-y 8080`. -/
theorem C2_unix_first_seen_witness :
    (findProcessUnix
        (sampleHost "linux" "COMMAND PID USER\nnode 101 ann\nnode 202 bob\nnode 101 ann\npy 303 cy\n" "" [])
        8080 []).pids = ["101", "202", "303"] ∧
    terminated (main
        (sampleHost "linux" "COMMAND PID USER\nnode 101 ann\nnode 202 bob\nnode 101 ann\npy 303 cy\n" "" [])
        ["killport", "-y", "8080"]).trace =
      (findProcessUnix
        (sampleHost "linux" "COMMAND PID USER\nnode 101 ann\nnode 202 bob\nnode 101 ann\npy 303 cy\n" "" [])
        8080 []).pids :=
  ⟨(C2_unix_first_seen
      (sampleHost "linux" "COMMAND PID USER\nnode 101 ann\nnode 202 bob\nnode 101 ann\npy 303 cy\n" "" [])
      8080 []).2.2.1 "101" "202" "303" (by decide) (by decide) (by decide) (by decide) (by decide),
   (C2_unix_first_seen
      (sampleHost "linux" "COMMAND PID USER\nnode 101 ann\nnode 202 bob\nnode 101 ann\npy 303 cy\n" "" [])
      8080 []).2.2.2 "killport" ["-y", "8080"] (Or.inr (by decide)) (by decide) (by decide)⟩

/-- C10 as stated fails: the row `node 1234` has no owning-user column, and it
is not skipped: its identifier is returned, with a summary line whose user is
empty. -/
theorem C10_counterexample :
    (Fields "node 1234").length = 2 ∧
    (findProcessUnix (sampleHost "linux" "COMMAND PID USER\nnode 1234\n" "" []) 8080 []).pids =
      ["1234"] ∧
    (findProcessUnix (sampleHost "linux" "COMMAND PID USER\nnode 1234\n" "" []) 8080 []).info =
      "  PID: 1234  Name: node  User: \n" := by
  decide

/-- C10, amended: when the socket listing was read without error, the first
line is skipped, every later line that is empty or has fewer than two fields
is skipped, a row with two fields or more carries its second field as
identifier, and the summary is one line for each returned identifier, in the
order of the identifiers, `  PID: <second field>  Name: <first field>  User:
<third field>` from the first row that carries the identifier, the user empty
when that row has only two fields; no error is returned. -/
theorem C10_unix_summary (h : Host) (port : Int) (tr : List Event)
    (hok : (h.output tr (lsofCmd port)).2 = none) :
    firstSeenOrder ((unixRows (h.output tr (lsofCmd port)).1).filterMap unixRowPid)
      (findProcessUnix h port tr).pids ∧
    (findProcessUnix h port tr).info =
      concatAll ((findProcessUnix h port tr).pids.map
        (unixLineFor (unixRows (h.output tr (lsofCmd port)).1))) ∧
    (findProcessUnix h port tr).err = none ∧
    (∀ line, (line = "" ∨ (Fields line).length < 2) → unixRowPid line = none) ∧
    (∀ line, line ≠ "" → 2 ≤ (Fields line).length →
      unixRowPid line = some ((Fields line).getD 1 "")) := by
  obtain ⟨h1, h2⟩ := findProcessUnix_spec h port tr hok
  refine ⟨?_, ?_, (findProcessUnix_trace h port tr).2, ?_, ?_⟩
  · rw [h1]
    exact firstSeenOrder_keepFirst _
  · rw [h2, h1]
  · intro line hl
    unfold unixRowPid
    rcases hl with hl | hl
    · simp [hl]
    · simp [hl]
  · intro line hl hf
    unfold unixRowPid
    have : ¬ (Fields line).length < 2 := by omega
    simp only [hl, this, if_false]

/-- C10, amended, on a listing with a two-field row, a repeated identifier and
a one-field row. -/
theorem C10_unix_summary_witness :
    (findProcessUnix
      (sampleHost "linux" "COMMAND PID USER\nnode 1234\nnode 1234 ann\nstray\npy 55 bob 7u\n" "" [])
      8080 []).info = "  PID: 1234  Name: node  User: \n  PID: 55  Name: py  User: bob\n" :=
  ((C10_unix_summary
      (sampleHost "linux" "COMMAND PID USER\nnode 1234\nnode 1234 ann\nstray\npy 55 bob 7u\n" "" [])
      8080 [] (by decide)).2.1).trans (by decide)

/-- C9: the identifiers `findProcessWindows` returns have no duplicates; when
the connection table was read without error they are, in first-seen order,
the identifiers contributed by its rows; and every identifier returned comes
from a row with five fields or more whose local address (second field) has
exactly the decimal form of the port after its last `:` and whose trailing
field is that identifier, different from the sentinel `0`. Port 80 matches
neither `:8080` nor `:180`. -/
theorem C9_windows_rows (h : Host) (port : Int) (tr : List Event) :
    (findProcessWindows h port tr).pids.Nodup ∧
    ((h.output tr (netstatCmd port)).2 = none →
      firstSeenOrder ((Split (h.output tr (netstatCmd port)).1 '\n').filterMap (winRowPid port))
        (findProcessWindows h port tr).pids) ∧
    (∀ pid ∈ (findProcessWindows h port tr).pids,
      ∃ line ∈ Split (h.output tr (netstatCmd port)).1 '\n',
        5 ≤ (Fields line).length ∧
        portPart ((Fields line).getD 1 "") = some (fmtInt port) ∧
        (Fields line).getLast? = some pid ∧ pid ≠ "0") ∧
    portPart "0.0.0.0:8080" ≠ some (fmtInt 80) ∧
    portPart "0.0.0.0:180" ≠ some (fmtInt 80) ∧
    portPart "[::]:80" = some (fmtInt 80) ∧
    (findProcessWindows
      (sampleHost "windows"
        "  TCP    0.0.0.0:8080    0.0.0.0:0    LISTENING    4321\r\n  TCP    0.0.0.0:180    0.0.0.0:0    LISTENING    555\r\n  TCP    [::]:80    [::]:0    LISTENING    77\r\n  TCP    0.0.0.0:80    0.0.0.0:0    LISTENING    0\r\n  TCP    0.0.0.0:80    0.0.0.0:0    LISTENING    77\r\n  UDP    0.0.0.0:80    *:*    99\r\n"
        "" []) 80 []).pids = ["77"] := by
  have hmem : ∀ pid,
      pid ∈ keepFirst ((Split (h.output tr (netstatCmd port)).1 '\n').filterMap (winRowPid port)) →
      ∃ line ∈ Split (h.output tr (netstatCmd port)).1 '\n',
        5 ≤ (Fields line).length ∧
        portPart ((Fields line).getD 1 "") = some (fmtInt port) ∧
        (Fields line).getLast? = some pid ∧ pid ≠ "0" := by
    intro pid hpid
    obtain ⟨line, hline, hrow⟩ := List.mem_filterMap.1 ((mem_keepFirst _ pid).1 hpid)
    refine ⟨line, hline, ?_⟩
    unfold winRowPid at hrow
    split at hrow
    · rename_i hc
      refine ⟨hc.1, hc.2.1, hrow, ?_⟩
      intro h0
      apply hc.2.2
      rw [hrow, h0]
    · cases hrow
  refine ⟨?_, ?_, ?_, by decide, by decide, by decide, by decide⟩
  · cases hok : (h.output tr (netstatCmd port)).2 with
    | none =>
      rw [findProcessWindows_pids h port tr hok]
      exact nodup_keepFirst _
    | some e => simp [findProcessWindows, hok]
  · intro hok
    rw [findProcessWindows_pids h port tr hok]
    exact firstSeenOrder_keepFirst _
  · intro pid hpid
    cases hok : (h.output tr (netstatCmd port)).2 with
    | none =>
      rw [findProcessWindows_pids h port tr hok] at hpid
      exact hmem pid hpid
    | some e => simp [findProcessWindows, hok] at hpid

/-- C9, on a Windows host whose table was read without error. -/
theorem C9_windows_rows_witness :
    firstSeenOrder
      ((Split ((sampleHost "windows" "  TCP    [::]:80    [::]:0    LISTENING    77\r\n" "" []).output []
          (netstatCmd 80)).1 '\n').filterMap (winRowPid 80))
      (findProcessWindows
        (sampleHost "windows" "  TCP    [::]:80    [::]:0    LISTENING    77\r\n" "" []) 80 []).pids :=
  (C9_windows_rows (sampleHost "windows" "  TCP    [::]:80    [::]:0    LISTENING    77\r\n" "" [])
    80 []).2.1 (by decide)

/-- Without auto-confirm, after the summary: the prompt, one read, then a fatal
error, `Aborted.`, or the kill. -/
theorem mainConfirm_ask (h : Host) (pids : List String) (port : Int) :
    mainConfirm h pids port false (summaryTrace h port) =
      match (h.readString (promptTrace h port)).2 with
      | some e =>
        { exit := 1,
          trace := promptTrace h port ++ [Event.stdin] ++
            [Event.stderr ("Error reading input: " ++ e ++ "\n")] }
      | none =>
        if TrimSpace (ToLower h.lowerTable (h.readString (promptTrace h port)).1) ≠ "y" ∧
            TrimSpace (ToLower h.lowerTable (h.readString (promptTrace h port)).1) ≠ "yes" then
          { exit := 0, trace := promptTrace h port ++ [Event.stdin] ++ [Event.stdout "Aborted.\n"] }
        else mainKill h pids port (promptTrace h port ++ [Event.stdin]) := rfl

/-! ## The normalised response -/

theorem toLowerRune_space (table : Char → Char) (c : Char) (hc : isSpace c = true) :
    toLowerRune table c = c := by
  unfold toLowerRune
  split
  · unfold asciiLower
    split
    · rename_i hr
      exfalso
      simp only [isSpace, Bool.or_eq_true, Bool.and_eq_true, decide_eq_true_eq] at hc
      omega
    · rfl
  · simp [hc]

theorem toLowerRune_of_ascii (table : Char → Char) (c : Char)
    (hc : (asciiLower c).toNat < 128) : toLowerRune table c = asciiLower c := by
  unfold toLowerRune
  split
  · rfl
  · rename_i hn
    exfalso
    unfold asciiLower at hc
    split at hc
    · omega
    · exact hn hc

theorem map_toLowerRune_spaces (table : Char → Char) (l : List Char)
    (hl : ∀ c ∈ l, isSpace c = true) : l.map (toLowerRune table) = l := by
  induction l with
  | nil => rfl
  | cons a l ih =>
    rw [List.map_cons, toLowerRune_space table a (hl a (List.mem_cons_self a l)),
      ih (fun c hc => hl c (List.mem_cons_of_mem a hc))]

theorem map_toLowerRune_of_ascii (table : Char → Char) (l : List Char)
    (hl : ∀ d ∈ l.map asciiLower, d.toNat < 128) :
    l.map (toLowerRune table) = l.map asciiLower := by
  apply List.map_congr_left
  intro c hc
  exact toLowerRune_of_ascii table c (hl _ (List.mem_map_of_mem asciiLower hc))

/-- A response that says yes normalises to `y` or to `yes`, whatever the case
table above ASCII. -/
theorem normalise_of_saysYes (table : Char → Char) (response : String)
    (hyes : saysYes response = true) :
    TrimSpace (ToLower table response) = "y" ∨ TrimSpace (ToLower table response) = "yes" := by
  obtain ⟨pre, post, hdec, hpre, hpost⟩ := trimSpaceL_decomp response.data
  have hdata : (ToLower table response).data =
      pre ++ (trimSpaceL response.data).map (toLowerRune table) ++ post := by
    show response.data.map (toLowerRune table) = _
    conv_lhs => rw [hdec]
    rw [List.map_append, List.map_append, map_toLowerRune_spaces table pre hpre,
      map_toLowerRune_spaces table post hpost]
  simp only [saysYes, TrimSpace, Bool.or_eq_true, decide_eq_true_eq] at hyes
  rcases hyes with hy | hy
  · left
    have hcore : (trimSpaceL response.data).map (toLowerRune table) = ['y'] := by
      rw [map_toLowerRune_of_ascii table _ (by rw [hy]; decide), hy]
    unfold TrimSpace
    rw [hdata, hcore, trimSpaceL_of_core pre post 'y' [] 'y' ['y'] rfl ⟨[], rfl⟩ hpre hpost
      (by decide) (by decide)]
  · right
    have hcore : (trimSpaceL response.data).map (toLowerRune table) = ['y', 'e', 's'] := by
      rw [map_toLowerRune_of_ascii table _ (by rw [hy]; decide), hy]
    unfold TrimSpace
    rw [hdata, hcore, trimSpaceL_of_core pre post 'y' ['e', 's'] 's' ['y', 'e', 's'] rfl
      ⟨['e', 'y'], rfl⟩ hpre hpost (by decide) (by decide)]

/-! ## Claims on confirmation and termination -/

/-- C3: for every identifier list and whatever the kill commands answer, both
kill loops run the kill command of every identifier exactly once, in list
order, each followed by its report (`Killed process <id> on port <port>` on
standard output when the command succeeded, a warning on the error stream when
it failed), and return no error; on a supported operating system the last part
of `main` then exits with status 0. -/
theorem C3_kill_each (h : Host) (pids : List String) (port : Int) (tr : List Event) :
    (∃ outs : List (Option String), outs.length = pids.length ∧
      killProcessesUnix h pids port tr = (tr ++ killEvents killCmd port pids outs, none) ∧
      terminated (killEvents killCmd port pids outs) = pids ∧
      ∀ i, i < pids.length →
        outs[i]? = some (h.run (tr ++ killEvents killCmd port (pids.take i) (outs.take i))
          (killCmd (pids.getD i "")))) ∧
    (∃ outs : List (Option String), outs.length = pids.length ∧
      killProcessesWindows h pids port tr = (tr ++ killEvents taskkillCmd port pids outs, none) ∧
      terminated (killEvents taskkillCmd port pids outs) = pids ∧
      ∀ i, i < pids.length →
        outs[i]? = some (h.run (tr ++ killEvents taskkillCmd port (pids.take i) (outs.take i))
          (taskkillCmd (pids.getD i "")))) ∧
    (∀ pid : String,
      killReport pid port none =
        Event.stdout ("Killed process " ++ pid ++ " on port " ++ fmtInt port ++ "\n") ∧
      ∀ e : String, killReport pid port (some e) =
        Event.stderr ("Warning: Failed to kill process " ++ pid ++ ": " ++ e ++ "\n")) ∧
    ((h.goos = "windows" ∨ h.goos = "darwin" ∨ h.goos = "linux") →
      (mainKill h pids port tr).exit = 0) := by
  refine ⟨?_, ?_, fun pid => ⟨rfl, fun e => rfl⟩, ?_⟩
  · obtain ⟨outs, hlen, hf, hout⟩ := killProcessesUnix_spec h pids port tr
    exact ⟨outs, hlen, hf,
      terminated_killEvents killCmd port killedPid_killCmd pids outs hlen, hout⟩
  · obtain ⟨outs, hlen, hf, hout⟩ := killProcessesWindows_spec h pids port tr
    exact ⟨outs, hlen, hf,
      terminated_killEvents taskkillCmd port killedPid_taskkillCmd pids outs hlen, hout⟩
  · intro hos
    rw [mainKill_supported h pids port tr hos]

/-- C3, with B failing between A and C: status 0, and the reports of A and C on
standard output around the warning for B. -/
theorem C3_kill_each_witness :
    (mainKill (sampleHost "linux" "" "" ["B"]) ["A", "B", "C"] 8080 []).exit = 0 ∧
    (mainKill (sampleHost "linux" "" "" ["B"]) ["A", "B", "C"] 8080 []).trace =
      [Event.exec ["kill", "-9", "A"], Event.stdout "Killed process A on port 8080\n",
       Event.exec ["kill", "-9", "B"],
       Event.stderr "Warning: Failed to kill process B: exit status 1\n",
       Event.exec ["kill", "-9", "C"], Event.stdout "Killed process C on port 8080\n"] :=
  ⟨(C3_kill_each (sampleHost "linux" "" "" ["B"]) ["A", "B", "C"] 8080 []).2.2.2
      (Or.inr (Or.inr (by decide))), by decide⟩

/-- C4: with auto-confirm unset and at least one process discovered, a response
that was read and does not normalise (lowercased, then trimmed) to `y` or
`yes` makes `main` print `Aborted.` and exit with status 0 with no termination
attempted. The responses `n`, the empty line, the empty text and `maybe` are
of that kind. -/
theorem C4_decline_aborts (h : Host) (prog : String) (args : List String) (port : Int)
    (hparse : parseArgs args 0 false = ParseResult.done port false) (hport : port ≠ 0)
    (herr : (findProcessOnPort h port []).err = none)
    (hpids : (findProcessOnPort h port []).pids ≠ [])
    (hread : (h.readString (promptTrace h port)).2 = none)
    (hresp : TrimSpace (ToLower h.lowerTable (h.readString (promptTrace h port)).1) ≠ "y" ∧
      TrimSpace (ToLower h.lowerTable (h.readString (promptTrace h port)).1) ≠ "yes") :
    main h (prog :: args) =
      { exit := 0, trace := promptTrace h port ++ [Event.stdin, Event.stdout "Aborted.\n"] } ∧
    terminated (main h (prog :: args)).trace = [] ∧
    (∀ r ∈ ["n\n", "\n", "", "maybe\n", "N\r\n"],
      TrimSpace (ToLower h.lowerTable r) ≠ "y" ∧ TrimSpace (ToLower h.lowerTable r) ≠ "yes") := by
  have hmain : main h (prog :: args) =
      { exit := 0, trace := promptTrace h port ++ [Event.stdin, Event.stdout "Aborted.\n"] } := by
    rw [main_of_done h prog args port false hparse hport, mainInspect_ok h port false herr,
      if_neg hpids, mainConfirm_ask, hread]
    simp only
    rw [if_pos hresp, List.append_assoc]
    rfl
  refine ⟨hmain, ?_, ?_⟩
  · rw [hmain]
    simp only [promptTrace, terminated_append, terminated_summaryTrace]
    rfl
  · intro r hr
    simp only [List.mem_cons, List.mem_singleton, List.not_mem_nil, or_false] at hr
    rcases hr with rfl | rfl | rfl | rfl | rfl
    · rw [show TrimSpace (ToLower h.lowerTable "n\n") = "n" from rfl]; decide
    · rw [show TrimSpace (ToLower h.lowerTable "\n") = "" from rfl]; decide
    · rw [show TrimSpace (ToLower h.lowerTable "") = "" from rfl]; decide
    · rw [show TrimSpace (ToLower h.lowerTable "maybe\n") = "maybe" from rfl]; decide
    · rw [show TrimSpace (ToLower h.lowerTable "N\r\n") = "n" from rfl]; decide

/-- C4, on Linux with one process on port 8080 and the response `maybe`. -/
theorem C4_decline_aborts_witness :
    main (sampleHost "linux" "COMMAND PID USER\nnode 1234 ann\n" "maybe\n" [])
        ["killport", "8080"] =
      { exit := 0,
        trace := promptTrace (sampleHost "linux" "COMMAND PID USER\nnode 1234 ann\n" "maybe\n" [])
          8080 ++ [Event.stdin, Event.stdout "Aborted.\n"] } :=
  (C4_decline_aborts (sampleHost "linux" "COMMAND PID USER\nnode 1234 ann\n" "maybe\n" [])
    "killport" ["8080"] 8080 (by decide) (by decide) (by decide) (by decide) (by decide)
    (by decide)).1

/-- C5: with auto-confirm unset and at least one process discovered, a response
that was read and equals `y` or `yes` after trimming the surrounding white
space and ignoring case makes `main` go on to the kill of the whole identifier
sequence found: the terminations attempted are exactly the identifiers
discovered, in order, and the exit status is 0. -/
theorem C5_yes_proceeds (h : Host) (prog : String) (args : List String) (port : Int)
    (hparse : parseArgs args 0 false = ParseResult.done port false) (hport : port ≠ 0)
    (herr : (findProcessOnPort h port []).err = none)
    (hpids : (findProcessOnPort h port []).pids ≠ [])
    (hread : (h.readString (promptTrace h port)).2 = none)
    (hyes : saysYes (h.readString (promptTrace h port)).1 = true) :
    main h (prog :: args) =
      mainKill h (findProcessOnPort h port []).pids port (promptTrace h port ++ [Event.stdin]) ∧
    (main h (prog :: args)).exit = 0 ∧
    terminated (main h (prog :: args)).trace = (findProcessOnPort h port []).pids := by
  have hos := findProcessOnPort_err_none h port [] herr
  have hnorm := normalise_of_saysYes h.lowerTable _ hyes
  have hmain : main h (prog :: args) =
      mainKill h (findProcessOnPort h port []).pids port
        (promptTrace h port ++ [Event.stdin]) := by
    have hno : ¬ (TrimSpace (ToLower h.lowerTable (h.readString (promptTrace h port)).1) ≠ "y" ∧
        TrimSpace (ToLower h.lowerTable (h.readString (promptTrace h port)).1) ≠ "yes") := by
      rcases hnorm with hn | hn <;> simp [hn]
    rw [main_of_done h prog args port false hparse hport, mainInspect_ok h port false herr,
      if_neg hpids, mainConfirm_ask, hread]
    simp only
    rw [if_neg hno]
  refine ⟨hmain, ?_, ?_⟩
  · rw [hmain, mainKill_supported h _ port _ hos]
  · rw [hmain, mainKill_supported h _ port _ hos]
    obtain ⟨_, evs, he, hterm, _⟩ :=
      killProcesses_supported h (findProcessOnPort h port []).pids port
        (promptTrace h port ++ [Event.stdin]) hos
    rw [he, terminated_append, terminated_append, hterm]
    simp only [promptTrace, terminated_append, terminated_summaryTrace]
    rfl

/-- C5, on Linux with two processes on port 8080 and the response `  Yes `; the
responses `y` and `YES` say yes as well. -/
theorem C5_yes_proceeds_witness :
    terminated (main
        (sampleHost "linux" "COMMAND PID USER\nnode 1234 ann\npy 55 bob\n" "  Yes \n" [])
        ["killport", "8080"]).trace =
      (findProcessOnPort
        (sampleHost "linux" "COMMAND PID USER\nnode 1234 ann\npy 55 bob\n" "  Yes \n" [])
        8080 []).pids ∧
    saysYes "y\n" = true ∧ saysYes "YES\n" = true :=
  ⟨(C5_yes_proceeds
      (sampleHost "linux" "COMMAND PID USER\nnode 1234 ann\npy 55 bob\n" "  Yes \n" [])
      "killport" ["8080"] 8080 (by decide) (by decide) (by decide) (by decide) (by decide)
      (by decide)).2.2, by decide, by decide⟩

/-- C6: when the argument loop ends with a port (whatever `autoConfirm`) and
inspection succeeds with no identifier, `main` prints `No process found
running on port P` after the inspection commands and exits with status 0,
with no read of the input, no prompt and no termination attempted; and on a
supported operating system inspection succeeds with no identifier when the
listing utility fails or prints nothing. -/
theorem C6_no_process (h : Host) (prog : String) (args : List String) (port : Int) (auto : Bool)
    (hparse : parseArgs args 0 false = ParseResult.done port auto) (hport : port ≠ 0)
    (herr : (findProcessOnPort h port []).err = none)
    (hpids : (findProcessOnPort h port []).pids = []) :
    (1 ≤ port ∧ port ≤ 65535) ∧
    main h (prog :: args) =
      { exit := 0,
        trace := (findProcessOnPort h port []).trace ++
          [Event.stdout ("No process found running on port " ++ fmtInt port ++ "\n")] } ∧
    Event.stdin ∉ (main h (prog :: args)).trace ∧
    Event.stdout "\nKill this process? [y/N]: " ∉ (main h (prog :: args)).trace ∧
    terminated (main h (prog :: args)).trace = [] ∧
    (∀ tr, (h.goos = "darwin" ∨ h.goos = "linux") →
      ((h.output tr (lsofCmd port)).2 ≠ none ∨ (h.output tr (lsofCmd port)).1 = "") →
      (findProcessOnPort h port tr).pids = [] ∧ (findProcessOnPort h port tr).err = none) ∧
    (∀ tr, h.goos = "windows" →
      ((h.output tr (netstatCmd port)).2 ≠ none ∨ (h.output tr (netstatCmd port)).1 = "") →
      (findProcessOnPort h port tr).pids = [] ∧ (findProcessOnPort h port tr).err = none) := by
  have hmain : main h (prog :: args) =
      { exit := 0,
        trace := (findProcessOnPort h port []).trace ++
          [Event.stdout ("No process found running on port " ++ fmtInt port ++ "\n")] } := by
    rw [main_of_done h prog args port auto hparse hport, mainInspect_ok h port auto herr,
      if_pos hpids]
  obtain ⟨hq1, hq2, hq3⟩ := inspection_quiet h port
  have hrange : 1 ≤ port ∧ port ≤ 65535 := by
    rcases parseArgs_done_port args 0 false port auto hparse with ⟨h0, _⟩ | hr
    · exact absurd h0 hport
    · exact hr
  have hempty : ∀ ans : String × Option String, (ans.2 ≠ none ∨ ans.1 = "") →
      (ans.2.isSome = true ∨ ans.1.length = 0) := by
    intro ans hans
    rcases hans with hans | hans
    · left
      cases h2 : ans.2 with
      | none => exact absurd h2 hans
      | some _ => rfl
    · right
      rw [hans]
      rfl
  refine ⟨hrange, hmain, ?_, ?_, ?_, ?_, ?_⟩
  · rw [hmain]
    simp [hq2]
  · rw [hmain]
    simp only [List.mem_append, List.mem_singleton, Event.stdout.injEq, not_or]
    refine ⟨hq3 _, ?_⟩
    intro hc
    have := congrArg (fun s : String => s.data.head?) hc
    simp [String.data_append] at this
  · rw [hmain]
    simp only [terminated_append, hq1]
    rfl
  · intro tr hu hans
    have hw : h.goos ≠ "windows" := by
      rcases hu with hu | hu <;> rw [hu] <;> decide
    simp only [findProcessOnPort, hw, if_false, hu, if_true, findProcessUnix,
      hempty _ hans, and_self]
  · intro tr hw hans
    simp only [findProcessOnPort, hw, if_true, findProcessWindows, hempty _ hans, and_self]

/-- C6, on Linux where `lsof` prints nothing, with and without `-y`. -/
theorem C6_no_process_witness :
    main (sampleHost "linux" "" "" []) ["killport", "-y", "8080"] =
      { exit := 0,
        trace := [Event.exec ["lsof", "-i", ":8080"],
          Event.stdout "No process found running on port 8080\n"] } ∧
    main (sampleHost "linux" "" "" []) ["killport", "8080"] =
      { exit := 0,
        trace := [Event.exec ["lsof", "-i", ":8080"],
          Event.stdout "No process found running on port 8080\n"] } :=
  ⟨(C6_no_process (sampleHost "linux" "" "" []) "killport" ["-y", "8080"] 8080 true (by decide)
      (by decide) (by decide) (by decide)).2.1.trans (by decide),
   (C6_no_process (sampleHost "linux" "" "" []) "killport" ["8080"] 8080 false (by decide)
      (by decide) (by decide) (by decide)).2.1.trans (by decide)⟩

/-! ## The port handed to inspection -/

/-- The first event of `findProcessWindows` is the `netstat` command for its
port. -/
theorem findProcessWindows_first (h : Host) (port : Int) (tr : List Event) :
    ∃ evs, (findProcessWindows h port tr).trace = tr ++ Event.exec (netstatCmd port) :: evs := by
  unfold findProcessWindows
  simp only
  split
  · exact ⟨[], rfl⟩
  · obtain ⟨evs, he, _⟩ := winLoop_trace h port
      (Split (h.output tr (netstatCmd port)).1 '\n')
      { pids := [], info := "", seenPids := [], trace := tr ++ [Event.exec (netstatCmd port)] }
    exact ⟨evs, by simp only [he]; simp⟩

/-- The events of `killProcesses` come after the events before the call. -/
theorem killProcesses_extends (h : Host) (pids : List String) (port : Int) (tr : List Event) :
    ∃ evs, (killProcesses h pids port tr).1 = tr ++ evs := by
  unfold killProcesses
  split
  · obtain ⟨outs, _, hf, _⟩ := killProcessesWindows_spec h pids port tr
    exact ⟨_, by rw [hf]⟩
  · split
    · obtain ⟨outs, _, hf, _⟩ := killProcessesUnix_spec h pids port tr
      exact ⟨_, by rw [hf]⟩
    · exact ⟨[], by simp⟩

theorem mainKill_extends (h : Host) (pids : List String) (port : Int) (tr : List Event) :
    ∃ evs, (mainKill h pids port tr).trace = tr ++ evs := by
  obtain ⟨evs, he⟩ := killProcesses_extends h pids port tr
  unfold mainKill
  simp only
  split
  · exact ⟨evs ++ [Event.stderr ("Error: " ++ _ ++ "\n")], by rw [he, List.append_assoc]⟩
  · exact ⟨evs, he⟩

theorem mainConfirm_extends (h : Host) (pids : List String) (port : Int) (auto : Bool)
    (tr : List Event) : ∃ evs, (mainConfirm h pids port auto tr).trace = tr ++ evs := by
  unfold mainConfirm
  cases auto with
  | true =>
    simp only [Bool.not_true, Bool.false_eq_true, if_false]
    exact mainKill_extends h pids port tr
  | false =>
    simp only [Bool.not_false, if_true]
    split
    · exact ⟨_, by simp only [List.append_assoc]; rfl⟩
    · split
      · exact ⟨_, by simp only [List.append_assoc]; rfl⟩
      · obtain ⟨evs, he⟩ := mainKill_extends h pids port
          (tr ++ [Event.stdout "\nKill this process? [y/N]: "] ++ [Event.stdin])
        exact ⟨_, by rw [he]; simp only [List.append_assoc]; rfl⟩

/-- The events of `mainInspect` start with the events of the inspection of its
port. -/
theorem mainInspect_extends (h : Host) (port : Int) (auto : Bool) :
    ∃ rest, (mainInspect h port auto).trace = (findProcessOnPort h port []).trace ++ rest := by
  unfold mainInspect
  simp only
  split
  · exact ⟨_, rfl⟩
  · split
    · exact ⟨_, rfl⟩
    · obtain ⟨evs, he⟩ := mainConfirm_extends h (findProcessOnPort h port []).pids port auto
        ((findProcessOnPort h port []).trace ++
          [Event.stdout ("Found process(es) on port " ++ fmtInt port ++ ":\n"),
           Event.stdout ((findProcessOnPort h port []).info ++ "\n")])
      exact ⟨_, by rw [he]; simp only [List.append_assoc]; rfl⟩

/-- C7: for an argument list made only of auto-confirm flags and one or more
port tokens, the argument loop ends without error with the value `p` of the
last port token, and `p` is the port handed to inspection: the events of
`main` start with the events of `findProcessOnPort` for `p`, so the first
thing the program does is run `lsof -i :p` on a Unix host and `cmd /c netstat
-ano | findstr :p` on a Windows host; on an operating system that is not
supported the only event is the unsupported-system error and the exit status
is 1. -/
theorem C7_last_port_wins (h : Host) (prog : String) (args : List String)
    (hall : ∀ a ∈ args, isYesFlag a = true ∨ isPortToken a = true)
    (hport : ∃ a ∈ args, isPortToken a = true) :
    ∃ p, lastPort args = some p ∧ 1 ≤ p ∧ p ≤ 65535 ∧
      parseArgs args 0 false = ParseResult.done p (args.any isYesFlag) ∧
      main h (prog :: args) = mainInspect h p (args.any isYesFlag) ∧
      (∃ rest, (main h (prog :: args)).trace = (findProcessOnPort h p []).trace ++ rest) ∧
      ((h.goos = "darwin" ∨ h.goos = "linux") →
        ∃ rest, (main h (prog :: args)).trace = Event.exec (lsofCmd p) :: rest) ∧
      (h.goos = "windows" →
        ∃ rest, (main h (prog :: args)).trace = Event.exec (netstatCmd p) :: rest) ∧
      (¬ (h.goos = "windows" ∨ h.goos = "darwin" ∨ h.goos = "linux") →
        main h (prog :: args) =
          { exit := 1,
            trace := [Event.stderr
              ("Error: " ++ ("unsupported operating system: " ++ h.goos) ++ "\n")] }) ∧
      ∀ text, Event.stderr (invalidPortMessage text) ∉ (findProcessOnPort h p []).trace := by
  obtain ⟨p, hl, h1, h2⟩ := lastPort_of_port_token args hport
  have hp := parseArgs_yes_ports args hall 0 false
  rw [hl] at hp
  simp only [Option.getD_some, Bool.false_or] at hp
  have hne : p ≠ 0 := by omega
  have hmain := main_of_done h prog args p (args.any isYesFlag) hp hne
  obtain ⟨rest, hrest⟩ := mainInspect_extends h p (args.any isYesFlag)
  refine ⟨p, hl, h1, h2, hp, hmain, ⟨rest, by rw [hmain, hrest]⟩, ?_, ?_, ?_, ?_⟩
  · intro hu
    have hw : h.goos ≠ "windows" := by
      rcases hu with hu | hu <;> rw [hu] <;> decide
    have hfind : findProcessOnPort h p [] = findProcessUnix h p [] := by
      simp only [findProcessOnPort, hw, if_false, hu, if_true]
    refine ⟨rest, ?_⟩
    rw [hmain, hrest, hfind, (findProcessUnix_trace h p []).1]
    rfl
  · intro hw
    have hfind : findProcessOnPort h p [] = findProcessWindows h p [] := by
      simp only [findProcessOnPort, hw, if_true]
    obtain ⟨evs, he⟩ := findProcessWindows_first h p []
    refine ⟨evs ++ rest, ?_⟩
    rw [hmain, hrest, hfind, he]
    simp
  · intro hos
    have hw : ¬ h.goos = "windows" := fun hc => hos (Or.inl hc)
    have hu : ¬ (h.goos = "darwin" ∨ h.goos = "linux") := fun hc => hos (Or.inr hc)
    rw [hmain]
    simp only [mainInspect, findProcessOnPort, hw, hu, if_false, List.nil_append]
  · intro text hmem
    obtain ⟨evs, he, hall2⟩ := findProcessOnPort_trace h p []
    rw [he, List.nil_append] at hmem
    have := hall2 _ hmem
    simp [isInspection] at this

/-- C7, at `3000 -y 8080 +81` on Linux: the port inspected is 81. -/
theorem C7_last_port_wins_witness :
    (∃ p, lastPort ["3000", "-y", "8080", "+81"] = some p ∧ 1 ≤ p ∧ p ≤ 65535 ∧
      parseArgs ["3000", "-y", "8080", "+81"] 0 false =
        ParseResult.done p (["3000", "-y", "8080", "+81"].any isYesFlag) ∧
      main quietHost ["killport", "3000", "-y", "8080", "+81"] =
        mainInspect quietHost p (["3000", "-y", "8080", "+81"].any isYesFlag) ∧
      (∃ rest, (main quietHost ["killport", "3000", "-y", "8080", "+81"]).trace =
        (findProcessOnPort quietHost p []).trace ++ rest) ∧
      ((quietHost.goos = "darwin" ∨ quietHost.goos = "linux") →
        ∃ rest, (main quietHost ["killport", "3000", "-y", "8080", "+81"]).trace =
          Event.exec (lsofCmd p) :: rest) ∧
      (quietHost.goos = "windows" →
        ∃ rest, (main quietHost ["killport", "3000", "-y", "8080", "+81"]).trace =
          Event.exec (netstatCmd p) :: rest) ∧
      (¬ (quietHost.goos = "windows" ∨ quietHost.goos = "darwin" ∨ quietHost.goos = "linux") →
        main quietHost ["killport", "3000", "-y", "8080", "+81"] =
          { exit := 1,
            trace := [Event.stderr
              ("Error: " ++ ("unsupported operating system: " ++ quietHost.goos) ++ "\n")] }) ∧
      ∀ text, Event.stderr (invalidPortMessage text) ∉ (findProcessOnPort quietHost p []).trace) ∧
    main quietHost ["killport", "3000", "-y", "8080", "+81"] =
      { exit := 0,
        trace := [Event.exec ["lsof", "-i", ":81"],
          Event.stdout "No process found running on port 81\n"] } :=
  ⟨C7_last_port_wins quietHost "killport" ["3000", "-y", "8080", "+81"] (by decide)
    ⟨"3000", by decide, by decide⟩, by decide⟩

end Killport
